import Mathlib

/-!
Verification development for the mermaid-cli pair-programming assistant.

Each Rust function that a claim touches is embedded shallowly as an
executable Lean definition, translated from the source under `src/`:

* `src/tui/mode.rs` — `OperationMode` and its helper predicates.
* `src/agents/types.rs` — `AgentAction`, `ActionResult`.
* `src/agents/mode_aware_executor.rs` — `ModeAwareExecutor.execute`,
  `is_destructive`, `describe_action`.
* `src/agents/filesystem.rs` — `normalize_path`, `validate_path` and the
  four file operations, over an explicit symlink-free filesystem model.
* `src/agents/parser.rs` — `parse_actions` and its block extractors.
* `src/cache/file_cache.rs`, `src/cache/cache_manager.rs` — cache keys,
  entry loading and `get_or_compute_symbols`, over an explicit disk model.
* `src/tui/app.rs` — `build_managed_message_history`.
* `src/session/conversation.rs` — conversation save/load round trip.
* `src/context/repo_graph.rs` — `compute_pagerank` over exact rationals.
* `src/context/ranker.rs` — `optimize_symbols`, `generate_map`.

External effects (the tokenizer, the parser backend, the action runner)
are passed as explicit function parameters, mirroring the trait objects
and library calls of the source.
-/

namespace Mermaid

/-- Split a character list on a separator character (the semantics of
Rust `split('/')` / `String.splitOn` for a one-character separator). -/
def splitOnChar (c : Char) : List Char → List (List Char)
| [] => [[]]
| a :: as =>
  match splitOnChar c as with
  | g :: gs => if a == c then [] :: g :: gs else (a :: g) :: gs
  | [] => [[a]]

/-- Strip whitespace from both ends (Rust `str::trim`). -/
def strTrim (s : String) : String :=
  String.mk (((s.data.dropWhile Char.isWhitespace).reverse.dropWhile Char.isWhitespace).reverse)

/-- Substring test on character lists, the semantics of Rust
`str::contains` for literal patterns. -/
def listContainsSub (needle : List Char) : List Char → Bool
| [] => needle.isEmpty
| a :: as => needle.isPrefixOf (a :: as) || listContainsSub needle as

/-- `strContains hay pat` is Rust `hay.contains(pat)`. -/
def strContains (hay pat : String) : Bool :=
  listContainsSub pat.data hay.data

/-- Operation mode, from `src/tui/mode.rs` (`OperationMode`). -/
inductive OperationMode where
| Normal
| AcceptEdits
| PlanMode
| BypassAll
deriving DecidableEq, Repr

/-- `OperationMode::is_planning_only` from `src/tui/mode.rs`. -/
def OperationMode.is_planning_only : OperationMode → Bool
| .PlanMode => true
| _ => false

/-- `OperationMode::short_name` from `src/tui/mode.rs`. -/
def OperationMode.short_name : OperationMode → String
| .Normal => "N"
| .AcceptEdits => "A"
| .PlanMode => "P"
| .BypassAll => "B"

/-- Agent action, from `src/agents/types.rs` (`AgentAction`). -/
inductive AgentAction where
| ReadFile (path : String)
| WriteFile (path : String) (content : String)
| DeleteFile (path : String)
| CreateDirectory (path : String)
| ExecuteCommand (command : String) (working_dir : Option String)
| GitDiff (path : Option String)
| GitCommit (message : String) (files : List String)
| GitStatus
deriving DecidableEq, Repr

/-- Action result, from `src/agents/types.rs` (`ActionResult`). -/
inductive ActionResult where
| Success (output : String)
| Error (error : String)
deriving DecidableEq, Repr

/-- `ModeAwareExecutor::is_destructive` from
`src/agents/mode_aware_executor.rs`: DeleteFile, or ExecuteCommand whose
text contains one of the four substrings. -/
def is_destructive : AgentAction → Bool
| .DeleteFile _ => true
| .ExecuteCommand command _ =>
    strContains command "rm" || strContains command "del" ||
    strContains command "drop" || strContains command "truncate"
| _ => false

/-- `ModeAwareExecutor::describe_action` from
`src/agents/mode_aware_executor.rs`. Byte lengths mirror Rust
`String::len`. -/
def describe_action : AgentAction → String
| .ReadFile path => "Read file: " ++ path
| .WriteFile path content =>
    "Write file: " ++ path ++ " (" ++ toString content.utf8ByteSize ++ " bytes)"
| .DeleteFile path => "Delete file: " ++ path
| .CreateDirectory path => "Create directory: " ++ path
| .ExecuteCommand command (some dir) => "Execute command in " ++ dir ++ ": " ++ command
| .ExecuteCommand command none => "Execute command: " ++ command
| .GitDiff (some p) => "Git diff for: " ++ p
| .GitDiff none => "Git diff (all files)"
| .GitStatus => "Git status"
| .GitCommit message files =>
    if files.length ≠ 0 then
      "Git commit (" ++ toString files.length ++ " files): " ++ message
    else
      "Git commit (all): " ++ message

/-- The mutable state of `ModeAwareExecutor` from
`src/agents/mode_aware_executor.rs`. -/
structure ModeAwareExecutor where
  mode : OperationMode
  bypass_confirmed : Bool
deriving DecidableEq, Repr

/-- The warning text built in `ModeAwareExecutor::execute` for a
destructive action in Bypass mode (the Rust string continuation joins the
two lines with a single newline). -/
def bypassWarningText (action : AgentAction) : String :=
  "[WARNING] DESTRUCTIVE OPERATION in Bypass Mode: " ++ describe_action action ++
  "\nPress Enter to confirm or Esc to cancel."

/-- Outcome of one `execute` call: the returned result, the executor state
after the call, and the list of actions that were actually passed on to
`execute_action` during the call (empty when the call only planned or
warned). -/
structure ExecOutcome where
  result : ActionResult
  state : ModeAwareExecutor
  executed : List AgentAction
deriving DecidableEq, Repr

/-- `ModeAwareExecutor::execute` from `src/agents/mode_aware_executor.rs`.
The underlying `execute_action` (which in Rust never returns `Err`; all
failures become `ActionResult::Error`) is passed as the function
parameter `run`. -/
def ModeAwareExecutor.execute (self : ModeAwareExecutor) (action : AgentAction)
    (run : AgentAction → ActionResult) : ExecOutcome :=
  if self.mode.is_planning_only then
    { result := .Success ("[PLANNED]: " ++ describe_action action)
      state := self
      executed := [] }
  else if self.mode = .BypassAll ∧ is_destructive action ∧ self.bypass_confirmed = false then
    { result := .Success (bypassWarningText action)
      state := { self with bypass_confirmed := true }
      executed := [] }
  else
    let result := run action
    let st : ModeAwareExecutor :=
      if self.bypass_confirmed then { self with bypass_confirmed := false } else self
    let result :=
      if self.mode ≠ .Normal then
        match result with
        | .Success output => .Success ("[" ++ self.mode.short_name ++ "] " ++ output)
        | other => other
      else result
    { result := result, state := st, executed := [action] }

/-!
### Filesystem path sandbox (`src/agents/filesystem.rs`)

Paths are modelled as Rust `Path` component lists (no `.` components;
`..` components are kept, exactly as Rust `Components` does).  The
filesystem is symlink-free, so `canonicalize` of an existing path is the
lexical resolution of its `..` components.
-/

/-- A Rust path: an `absolute` flag (the `RootDir` component) plus the
remaining components, which may include `..`. -/
structure RPath where
  absolute : Bool
  comps : List String
deriving DecidableEq, Repr

/-- Rust `Path::starts_with`: component-wise prefix, the root component
included. -/
def RPath.starts_with (p base : RPath) : Bool :=
  base.absolute = p.absolute && base.comps.isPrefixOf p.comps

/-- Rust `PathBuf::join`: an absolute right operand replaces the left. -/
def RPath.join (base p : RPath) : RPath :=
  if p.absolute then p else { absolute := base.absolute, comps := base.comps ++ p.comps }

/-- Rust `Path::parent`: drop the final component; `None` at the root or
for the empty relative path. -/
def RPath.parent (p : RPath) : Option RPath :=
  match p.comps with
  | [] => none
  | _ :: _ => some { absolute := p.absolute, comps := p.comps.dropLast }

/-- Rust `Path::file_name`: the final component unless it is `..`. -/
def RPath.file_name (p : RPath) : Option String :=
  match p.comps.getLast? with
  | some c => if c = ".." then none else some c
  | none => none

/-- Rust `Path::display` for the component representation. -/
def RPath.render (p : RPath) : String :=
  (if p.absolute then "/" else "") ++ String.intercalate "/" p.comps

/-- Lexical resolution of `..` components (left to right, a `..` at the
root stays at the root, as on Linux). On a symlink-free filesystem this
is what `fs::canonicalize` computes for an existing path. -/
def resolveDots : List String → List String → List String
| acc, [] => acc
| acc, c :: rest => if c = ".." then resolveDots acc.dropLast rest else resolveDots (acc ++ [c]) rest

/-- Filesystem state: contents of existing files and the set of existing
directories, both indexed by resolved absolute component lists. -/
structure FsState where
  files : List (List String × String)
  dirs : List (List String)
deriving DecidableEq, Repr

/-- Whether a node (file or directory) exists at resolved components. -/
def FsState.existsAt (fs : FsState) (comps : List String) : Bool :=
  fs.dirs.contains comps || (fs.files.map Prod.fst).contains comps

/-- Rust `Path::exists` for an absolute path: the OS resolves the `..`
components while traversing. -/
def fsExists (fs : FsState) (p : RPath) : Bool :=
  p.absolute && fs.existsAt (resolveDots [] p.comps)

/-- `fs::create_dir_all`: create the directory and all its ancestors. -/
def FsState.mkdirAll (fs : FsState) (comps : List String) : FsState :=
  { fs with dirs := (List.range (comps.length + 1)).map (fun k => comps.take k) ++ fs.dirs }

/-- Write (create or overwrite) a file at resolved components. -/
def FsState.writeAt (fs : FsState) (comps : List String) (content : String) : FsState :=
  { fs with files := (comps, content) :: fs.files.filter (fun e => e.1 ≠ comps) }

/-- Read a file at resolved components. -/
def FsState.readAt (fs : FsState) (comps : List String) : Option String :=
  (fs.files.find? (fun e => e.1 = comps)).map Prod.snd

/-- Remove the file at resolved components. -/
def FsState.removeAt (fs : FsState) (comps : List String) : FsState :=
  { fs with files := fs.files.filter (fun e => e.1 ≠ comps) }

/-- Errors raised by `src/agents/filesystem.rs`, with their exact message
texts. -/
inductive FsError where
| AccessDenied
| SecurityOutside (path : RPath)
| SecuritySensitive (path : RPath)
| IoFailure (context : String) (path : RPath)
deriving DecidableEq, Repr

/-- The `anyhow` message text of each error, from the `bail!`/`context`
format strings in `src/agents/filesystem.rs`. -/
def FsError.message : FsError → String
| .AccessDenied => "Access denied: path outside of project directory"
| .SecurityOutside p =>
    "Security error: attempted to access path outside of project directory: " ++ p.render
| .SecuritySensitive p =>
    "Security error: attempted to access potentially sensitive file: " ++ p.render
| .IoFailure ctx p => ctx ++ ": " ++ p.render

/-- `normalize_path` from `src/agents/filesystem.rs`: absolute paths must
start with the current directory; relative paths are joined onto it. -/
def normalize_path (cwd : RPath) (p : RPath) : Except FsError RPath :=
  if p.absolute then
    if p.starts_with cwd then .ok p else .error .AccessDenied
  else .ok (cwd.join p)

/-- The sensitive-file denylist of `validate_path`. -/
def sensitive_patterns : List String :=
  [".ssh", ".aws", ".env", "id_rsa", "id_ed25519", ".git/config", ".npmrc", ".pypirc"]

/-- The canonical path `validate_path` computes: canonicalize the path if
it exists; else canonicalize an existing parent and re-append the file
name (`file_name().unwrap_or_default()` contributes nothing for a `..`
leaf); else leave the path unresolved. -/
def canonicalOf (fs : FsState) (p : RPath) : RPath :=
  if fsExists fs p then { absolute := true, comps := resolveDots [] p.comps }
  else
    match p.parent with
    | some par =>
        if fsExists fs par then
          { absolute := true
            comps := resolveDots [] par.comps ++ (match p.file_name with | some c => [c] | none => []) }
        else p
    | none => p

/-- `validate_path` from `src/agents/filesystem.rs`. -/
def validate_path (fs : FsState) (cwd : RPath) (p : RPath) : Except FsError Unit :=
  let canonical := canonicalOf fs p
  if ¬ canonical.starts_with cwd then .error (.SecurityOutside p)
  else if sensitive_patterns.any (fun pat => strContains p.render pat) then
    .error (.SecuritySensitive p)
  else .ok ()

/-- Append a suffix to the final component, the effect of Rust
`format!` on the displayed path for `.backup`/`.deleted` names. -/
def appendToLast (comps : List String) (suffix : String) : List String :=
  match comps.getLast? with
  | some c => comps.dropLast ++ [c ++ suffix]
  | none => [suffix]

/-- `write_file` from `src/agents/filesystem.rs`: normalize, validate,
create parent directories, back up an existing target, write. -/
def write_file (fs : FsState) (cwd : RPath) (p : RPath) (content : String) :
    Except FsError FsState := do
  let path ← normalize_path cwd p
  let _ ← validate_path fs cwd path
  let fs :=
    match path.parent with
    | some par => fs.mkdirAll (resolveDots [] par.comps)
    | none => fs
  let target := resolveDots [] path.comps
  let fs :=
    if fsExists fs path then
      match fs.readAt target with
      | some old => fs.writeAt (appendToLast target ".backup") old
      | none => fs
    else fs
  .ok (fs.writeAt target content)

/-- `read_file` from `src/agents/filesystem.rs`. -/
def read_file (fs : FsState) (cwd : RPath) (p : RPath) : Except FsError String := do
  let path ← normalize_path cwd p
  let _ ← validate_path fs cwd path
  match fs.readAt (resolveDots [] path.comps) with
  | some content => .ok content
  | none => .error (.IoFailure "Failed to read file" path)

/-- `delete_file` from `src/agents/filesystem.rs`: back up, then remove. -/
def delete_file (fs : FsState) (cwd : RPath) (p : RPath) : Except FsError FsState := do
  let path ← normalize_path cwd p
  let _ ← validate_path fs cwd path
  let target := resolveDots [] path.comps
  let fs :=
    if fsExists fs path then
      match fs.readAt target with
      | some old => fs.writeAt (appendToLast target ".deleted") old
      | none => fs
    else fs
  match fs.readAt target with
  | some _ => .ok (fs.removeAt target)
  | none => .error (.IoFailure "Failed to delete file" path)

/-- `create_directory` from `src/agents/filesystem.rs`. -/
def create_directory (fs : FsState) (cwd : RPath) (p : RPath) : Except FsError FsState := do
  let path ← normalize_path cwd p
  let _ ← validate_path fs cwd path
  .ok (fs.mkdirAll (resolveDots [] path.comps))

/-!
### Agent directive parser (`src/agents/parser.rs`)

Rust `str::find`/`rfind` byte indices become character indices over
`String.data`; the directive text is ASCII so the two coincide.
-/

/-- Index of the first occurrence of `needle` in `hay` (Rust `find`). -/
def findSubIdx (needle hay : List Char) : Option Nat :=
  (List.range (hay.length + 1)).find? (fun i => needle.isPrefixOf (hay.drop i))

/-- Index of the last occurrence of `needle` in `hay` (Rust `rfind`). -/
def rfindSubIdx (needle hay : List Char) : Option Nat :=
  (List.range (hay.length + 1)).reverse.find? (fun i => needle.isPrefixOf (hay.drop i))

/-- The scanning loop of `extract_block` from `src/agents/parser.rs`:
collect non-overlapping `[TYPE:...][/TYPE]` blocks left to right.  Each
round consumes at least the end tag, so `text.length + 1` fuel always
suffices. -/
def extract_block_loop (startTag endTag : List Char) :
    Nat → List Char → List (List Char) → List (List Char)
| 0, _, acc => acc
| Nat.succ fuel, remaining, acc =>
  match findSubIdx startTag remaining with
  | none => acc
  | some block_start =>
    match findSubIdx endTag (remaining.drop block_start) with
    | none => acc
    | some e =>
      let block := (remaining.drop block_start).take (e + endTag.length)
      extract_block_loop startTag endTag fuel
        (remaining.drop (block_start + e + endTag.length)) (acc ++ [block])

/-- `extract_block` from `src/agents/parser.rs`. -/
def extract_block (text : String) (block_type : String) : Option (List String) :=
  let startTag := ("[" ++ block_type ++ ":").data
  let endTag := ("[/" ++ block_type ++ "]").data
  let blocks := extract_block_loop startTag endTag (text.data.length + 1) text.data []
  if blocks.isEmpty then none else some (blocks.map String.mk)

/-- `extract_path_from_header` from `src/agents/parser.rs`: the trimmed
text between `[TYPE:` and the next `]`. -/
def extract_path_from_header (block : String) (block_type : String) : Option String :=
  let startTag := ("[" ++ block_type ++ ":").data
  match findSubIdx startTag block.data with
  | some start =>
    let path_start := start + startTag.length
    match findSubIdx [']'] (block.data.drop path_start) with
    | some e => some (strTrim (String.mk ((block.data.drop path_start).take e)))
    | none => none
  | none => none

/-- `extract_content` from `src/agents/parser.rs`: the trimmed text
between the first `]` and the last `[/`.  (The Rust slice panics when the
first `]` lies beyond the last `[/`; that guard branch returns the empty
string here and is unreachable for blocks produced by `extract_block`
with a `]`-closed header.) -/
def extract_content (block : String) : String :=
  match findSubIdx [']'] block.data with
  | some header_end =>
    match rfindSubIdx ['[', '/'] block.data with
    | some footer_start =>
      if header_end + 1 ≤ footer_start then
        strTrim (String.mk ((block.data.drop (header_end + 1)).take (footer_start - (header_end + 1))))
      else ""
    | none => ""
  | none => ""

/-- Rust `trim_matches('"')`: strip quote characters from both ends. -/
def trimQuotes (s : String) : String :=
  String.mk (((s.data.dropWhile (fun c => c == '"')).reverse.dropWhile (fun c => c == '"')).reverse)

/-- The FILE_WRITE segment of `parse_actions`. -/
def write_actions (response : String) : List AgentAction :=
  match extract_block response "FILE_WRITE" with
  | some captures => captures.filterMap (fun capture =>
      (extract_path_from_header capture "FILE_WRITE").map
        (fun path => AgentAction.WriteFile path (extract_content capture)))
  | none => []

/-- The FILE_READ segment of `parse_actions`. -/
def read_actions (response : String) : List AgentAction :=
  match extract_block response "FILE_READ" with
  | some captures => captures.filterMap (fun capture =>
      (extract_path_from_header capture "FILE_READ").map AgentAction.ReadFile)
  | none => []

/-- The COMMAND segment of `parse_actions`. -/
def command_actions (response : String) : List AgentAction :=
  match extract_block response "COMMAND" with
  | some captures => captures.filterMap (fun capture =>
      (extract_path_from_header capture "COMMAND").map (fun cmd =>
        match findSubIdx " dir=".data cmd.data with
        | some dir_pos =>
            AgentAction.ExecuteCommand (String.mk (cmd.data.take dir_pos))
              (some (trimQuotes (String.mk (cmd.data.drop (dir_pos + 5)))))
        | none => AgentAction.ExecuteCommand cmd none))
  | none => []

/-- `parse_actions` from `src/agents/parser.rs`: FILE_WRITE blocks, then
FILE_READ, then COMMAND (splitting a ` dir=` attribute), then the
`[GIT_DIFF]` tag, then the `[GIT_STATUS]` tag. -/
def parse_actions (response : String) : List AgentAction :=
  let write_acts :=
    match extract_block response "FILE_WRITE" with
    | some captures => captures.filterMap (fun capture =>
        (extract_path_from_header capture "FILE_WRITE").map
          (fun path => AgentAction.WriteFile path (extract_content capture)))
    | none => []
  let read_acts :=
    match extract_block response "FILE_READ" with
    | some captures => captures.filterMap (fun capture =>
        (extract_path_from_header capture "FILE_READ").map AgentAction.ReadFile)
    | none => []
  let command_acts :=
    match extract_block response "COMMAND" with
    | some captures => captures.filterMap (fun capture =>
        (extract_path_from_header capture "COMMAND").map (fun cmd =>
          match findSubIdx " dir=".data cmd.data with
          | some dir_pos =>
              AgentAction.ExecuteCommand (String.mk (cmd.data.take dir_pos))
                (some (trimQuotes (String.mk (cmd.data.drop (dir_pos + 5)))))
          | none => AgentAction.ExecuteCommand cmd none))
    | none => []
  let git_acts :=
    (if strContains response "[GIT_DIFF]" then [AgentAction.GitDiff none] else []) ++
    (if strContains response "[GIT_STATUS]" then [AgentAction.GitStatus] else [])
  write_acts ++ read_acts ++ command_acts ++ git_acts

/-!
### Message history trimming (`src/tui/app.rs`)
-/

/-- Message role. Modelled from the spec: the `MessageRole` enum is
re-exported from `src/models` but its declaration is not among the
provided sources; the spec fixes role ∈ \x7buser, assistant, system\x7d and
`src/tui/app.rs` matches exactly these three variants. -/
inductive MessageRole where
| User
| Assistant
| System
deriving DecidableEq, BEq, Repr

/-- Chat message. Modelled from the spec: the `ChatMessage` struct is
re-exported from `src/models` but its declaration is not among the
provided sources; the spec gives (role, content string, timestamp) and
the construction site in `src/tui/app.rs` fills exactly these fields.
The `chrono` timestamp is modelled as an integer instant. -/
structure ChatMessage where
  role : MessageRole
  content : String
  timestamp : Int
deriving DecidableEq, Repr

/-- The role strings used when counting chat tokens in
`build_managed_message_history`. -/
def roleStr : MessageRole → String
| .User => "user"
| .Assistant => "assistant"
| .System => "system"

/-- The trimming loop of `build_managed_message_history`
(`src/tui/app.rs` lines 323-346): iterate newest-first, admit a message
that fits, admit the first non-fitting message while fewer than two
messages are kept (then stop), otherwise stop. -/
def trim_loop (countChat : List (String × String) → Nat) (available : Nat) :
    List ChatMessage → List ChatMessage → Nat → List ChatMessage
| [], kept, _ => kept
| msg :: rest, kept, current =>
  let msg_tokens := countChat [(roleStr msg.role, msg.content)]
  if current + msg_tokens ≤ available then
    trim_loop countChat available rest (kept ++ [msg]) (current + msg_tokens)
  else if kept.length < 2 then kept ++ [msg]
  else kept

/-- `App::build_managed_message_history` from `src/tui/app.rs`.  The
tokenizer call `count_chat_tokens` is the function parameter `countChat`
(its error fallback is a particular choice of that function). -/
def build_managed_message_history (countChat : List (String × String) → Nat)
    (max_context_tokens reserve_tokens : Nat) (messages : List ChatMessage) :
    List ChatMessage :=
  let available_tokens := max_context_tokens - reserve_tokens
  let all_messages := messages.filter
    (fun m => m.role == MessageRole.User || m.role == MessageRole.Assistant)
  if all_messages.isEmpty then []
  else
    let messages_for_counting := all_messages.map (fun m => (roleStr m.role, m.content))
    let total_tokens := countChat messages_for_counting
    if total_tokens ≤ available_tokens then all_messages
    else (trim_loop countChat available_tokens all_messages.reverse [] 0).reverse

/-- The trimming loop as claim C5 words it (admit newest-first until the
next message would overflow; always admit at least the most recent
message).  This follows the claim text, for comparison with
`build_managed_message_history`, and differs from the source only in the
`kept.length < 1` threshold. -/
def claim_trim_loop (countChat : List (String × String) → Nat) (available : Nat) :
    List ChatMessage → List ChatMessage → Nat → List ChatMessage
| [], kept, _ => kept
| msg :: rest, kept, current =>
  let msg_tokens := countChat [(roleStr msg.role, msg.content)]
  if current + msg_tokens ≤ available then
    claim_trim_loop countChat available rest (kept ++ [msg]) (current + msg_tokens)
  else if kept.length < 1 then kept ++ [msg]
  else kept

/-- `build_managed_message_history` as claim C5 describes it. -/
def claim_build_history (countChat : List (String × String) → Nat)
    (max_context_tokens reserve_tokens : Nat) (messages : List ChatMessage) :
    List ChatMessage :=
  let available_tokens := max_context_tokens - reserve_tokens
  let all_messages := messages.filter
    (fun m => m.role == MessageRole.User || m.role == MessageRole.Assistant)
  if all_messages.isEmpty then []
  else
    let messages_for_counting := all_messages.map (fun m => (roleStr m.role, m.content))
    let total_tokens := countChat messages_for_counting
    if total_tokens ≤ available_tokens then all_messages
    else (claim_trim_loop countChat available_tokens all_messages.reverse [] 0).reverse

/-!
### Conversation persistence (`src/session/conversation.rs`)

The `serde_json` boundary is modelled at the JSON-value level: saving
stores the record's JSON image under `<id>.json`, loading decodes it.
-/

/-- JSON values. -/
inductive Json where
| null
| str (s : String)
| num (n : Int)
| arr (xs : List Json)
| obj (fields : List (String × Json))

/-- JSON image of a `ChatMessage` (serde field order). Role strings are
modelled from the spec (role ∈ user/assistant/system; the enum
declaration is not among the provided sources). -/
def ChatMessage.toJson (m : ChatMessage) : Json :=
  .obj [("role", .str (roleStr m.role)), ("content", .str m.content),
        ("timestamp", .num m.timestamp)]

/-- Parse a role string. -/
def parseRole : String → Option MessageRole
| "user" => some .User
| "assistant" => some .Assistant
| "system" => some .System
| _ => none

/-- Decode a `ChatMessage` from JSON. -/
def ChatMessage.fromJson? (j : Json) : Option ChatMessage :=
  match j with
  | .obj fields =>
    match fields.lookup "role", fields.lookup "content", fields.lookup "timestamp" with
    | some (.str r), some (.str content), some (.num ts) =>
      (parseRole r).map (fun role => { role := role, content := content, timestamp := ts })
    | _, _, _ => none
  | _ => none

/-- `ConversationHistory` from `src/session/conversation.rs`. `chrono`
timestamps are modelled as integer instants. -/
structure ConversationHistory where
  id : String
  title : String
  messages : List ChatMessage
  model_name : String
  project_path : String
  created_at : Int
  updated_at : Int
  total_tokens : Option Nat
deriving DecidableEq, Repr

/-- JSON image of a `ConversationHistory` (serde field order). -/
def ConversationHistory.toJson (c : ConversationHistory) : Json :=
  .obj [("id", .str c.id), ("title", .str c.title),
        ("messages", .arr (c.messages.map ChatMessage.toJson)),
        ("model_name", .str c.model_name), ("project_path", .str c.project_path),
        ("created_at", .num c.created_at), ("updated_at", .num c.updated_at),
        ("total_tokens", match c.total_tokens with | some n => .num n | none => .null)]

/-- Decode a `ConversationHistory` from JSON. -/
def ConversationHistory.fromJson? (j : Json) : Option ConversationHistory :=
  match j with
  | .obj fields =>
    match fields.lookup "id", fields.lookup "title", fields.lookup "messages",
          fields.lookup "model_name", fields.lookup "project_path",
          fields.lookup "created_at", fields.lookup "updated_at",
          fields.lookup "total_tokens" with
    | some (.str id), some (.str title), some (.arr msgs), some (.str model_name),
      some (.str project_path), some (.num created_at), some (.num updated_at), some tt =>
      match msgs.mapM ChatMessage.fromJson?, tt with
      | some messages, .null =>
          some { id := id, title := title, messages := messages, model_name := model_name
                 project_path := project_path, created_at := created_at
                 updated_at := updated_at, total_tokens := none }
      | some messages, .num n =>
          if 0 ≤ n then
            some { id := id, title := title, messages := messages, model_name := model_name
                   project_path := project_path, created_at := created_at
                   updated_at := updated_at, total_tokens := some n.toNat }
          else none
      | _, _ => none
    | _, _, _, _, _, _, _, _ => none
  | _ => none

/-- The conversations directory as a store from file name to JSON
document. -/
def ConvStore : Type := String → Option Json

/-- `ConversationManager::save_conversation`: write the record's JSON to
`<id>.json`, overwriting. -/
def save_conversation (conv : ConversationHistory) (store : ConvStore) : ConvStore :=
  fun f => if f = conv.id ++ ".json" then some conv.toJson else store f

/-- `ConversationManager::load_conversation`: read `<id>.json` and
decode. -/
def load_conversation (id : String) (store : ConvStore) : Option ConversationHistory :=
  (store (id ++ ".json")).bind ConversationHistory.fromJson?

/-!
### Symbols and the content-addressed cache
(`src/context/tree_parser.rs`, `src/cache/file_cache.rs`,
`src/cache/cache_manager.rs`)
-/

/-- `SymbolKind` from `src/context/tree_parser.rs`. The `Class`, `Type`,
`Variable`, `Import` and `Module` variants carry a trailing `K` because
their Rust names are Lean keywords or reserved here. -/
inductive SymbolKind where
| Function
| ClassK
| Method
| Interface
| TypeK
| VariableK
| ImportK
| ModuleK
deriving DecidableEq, Repr

/-- `Symbol` from `src/context/tree_parser.rs` (`PathBuf` as a string). -/
structure Symbol where
  name : String
  kind : SymbolKind
  file_path : String
  line : Nat
  signature : Option String
  doc_comment : Option String
deriving DecidableEq, Repr

/-- `SymbolReference` from `src/context/tree_parser.rs`. -/
structure SymbolReference where
  symbol_name : String
  from_file : String
  from_line : Nat
  to_file : Option String
deriving DecidableEq, Repr

/-- `CacheKey` from `src/cache/types.rs`: file path plus content hash. -/
structure CacheKey where
  file_path : String
  file_hash : String
deriving DecidableEq, Repr

/-- `CachedSymbols` from `src/cache/types.rs`. -/
structure CachedSymbols where
  symbols : List Symbol
  references : List SymbolReference
deriving DecidableEq, Repr

/-- Cache-layer errors: an I/O failure reading the source file, or a
`bincode`/`lz4` failure while loading an entry, or a parser failure. -/
inductive CacheError where
| IoError
| DeserializeError
| DecompressError
| ParseFailure
deriving DecidableEq, Repr

/-- `FileCache::hash_file`: read the file bytes from disk and hash them.
The SHA-256 digest is the function parameter `hashFn`; the disk is the
read function `fsRead`. -/
def hash_file (hashFn : String → String) (fsRead : String → Option String)
    (path : String) : Except CacheError String :=
  match fsRead path with
  | some content => .ok (hashFn content)
  | none => .error .IoError

/-- `FileCache::generate_key`: the key is the path plus the digest of the
on-disk bytes. -/
def generate_key (hashFn : String → String) (fsRead : String → Option String)
    (path : String) : Except CacheError CacheKey :=
  (hash_file hashFn fsRead path).map (fun h => { file_path := path, file_hash := h })

/-- Last path component for the cache file name
(`file_name().unwrap_or("unknown")` in `FileCache::cache_path`). -/
def cacheFileNameOf (path : String) : String :=
  match (splitOnChar '/' path.data).getLast? with
  | some s => if s.isEmpty then "unknown" else String.mk s
  | none => "unknown"

/-- `FileCache::cache_path`: shard by the first two hash characters,
name by file name plus the first eight hash characters (character take
matches the Rust byte slice on ASCII hex digests). -/
def cache_path (key : CacheKey) : String :=
  String.mk (key.file_hash.data.take 2) ++ "/" ++ cacheFileNameOf key.file_path ++ "_" ++
    String.mk (key.file_hash.data.take 8) ++ ".cache"

/-- The bytes of one on-disk cache entry file, as observed through
`bincode` and `lz4`: either one of the three corruption modes of
`FileCache::load` (outer deserialization fails; decompression fails or
the declared uncompressed size does not match; inner deserialization
fails) or a well-formed entry. -/
inductive StoredEntry where
| corruptEntry
| corruptCompressed (key : CacheKey)
| corruptPayload (key : CacheKey)
| valid (key : CacheKey) (payload : CachedSymbols)
deriving DecidableEq, Repr

/-- The disk tier: cache file path to stored entry. -/
def DiskCache : Type := String → Option StoredEntry

/-- `FileCache::load`: a missing file is `Ok(None)`; every corruption is
an `Err` (the `?` operators in the Rust body propagate it). -/
def FileCache.load (disk : DiskCache) (key : CacheKey) :
    Except CacheError (Option CachedSymbols) :=
  match disk (cache_path key) with
  | none => .ok none
  | some .corruptEntry => .error .DeserializeError
  | some (.corruptCompressed _) => .error .DecompressError
  | some (.corruptPayload _) => .error .DeserializeError
  | some (.valid _ payload) => .ok (some payload)

/-- `FileCache::is_valid`: the file still exists and re-hashes to the
stored digest. -/
def FileCache.is_valid (hashFn : String → String) (fsRead : String → Option String)
    (key : CacheKey) : Except CacheError Bool :=
  match fsRead key.file_path with
  | none => .ok false
  | some content => .ok (hashFn content = key.file_hash)

/-- `FileCache::remove`: delete the entry file. -/
def FileCache.remove (disk : DiskCache) (key : CacheKey) : DiskCache :=
  fun p => if p = cache_path key then none else disk p

/-- `FileCache::save`: write a well-formed entry file. -/
def FileCache.save (disk : DiskCache) (key : CacheKey) (data : CachedSymbols) : DiskCache :=
  fun p => if p = cache_path key then some (.valid key data) else disk p

/-- The `CacheManager` state: memory tier (symbol map plus counters) and
disk tier. -/
structure CacheState where
  mem : List (CacheKey × CachedSymbols)
  disk : DiskCache
  hits : Nat
  misses : Nat

/-- The compute-and-cache tail of `CacheManager::get_or_compute_symbols`
(lines 85-110): bump the miss counter, parse, write through to disk and
memory. `parse_file` errors propagate; `find_references` errors fall back
to the empty list (`unwrap_or_default`). -/
def computeAndStore (parse_file : String → String → Except CacheError (List Symbol))
    (find_references : String → String → Except CacheError (List SymbolReference))
    (st : CacheState) (key : CacheKey) (path : String) (content : String) :
    Except CacheError ((List Symbol × List SymbolReference) × CacheState) := do
  let st := { st with misses := st.misses + 1 }
  let symbols ← parse_file path content
  let references := match find_references path content with | .ok r => r | .error _ => []
  let cached : CachedSymbols := { symbols := symbols, references := references }
  .ok ((symbols, references),
       { st with disk := FileCache.save st.disk key cached, mem := (key, cached) :: st.mem })

/-- `CacheManager::get_or_compute_symbols` from
`src/cache/cache_manager.rs`: memory tier, then disk tier with
revalidation, then compute and write through. -/
def get_or_compute_symbols (hashFn : String → String) (fsRead : String → Option String)
    (parse_file : String → String → Except CacheError (List Symbol))
    (find_references : String → String → Except CacheError (List SymbolReference))
    (st : CacheState) (path : String) (content : String) :
    Except CacheError ((List Symbol × List SymbolReference) × CacheState) := do
  let key ← generate_key hashFn fsRead path
  match st.mem.lookup key with
  | some cached =>
      .ok ((cached.symbols, cached.references), { st with hits := st.hits + 1 })
  | none =>
    let loaded ← FileCache.load st.disk key
    match loaded with
    | some cached => do
      let valid ← FileCache.is_valid hashFn fsRead key
      if valid then
        .ok ((cached.symbols, cached.references),
             { st with mem := (key, cached) :: st.mem, hits := st.hits + 1 })
      else
        computeAndStore parse_file find_references
          { st with disk := FileCache.remove st.disk key } key path content
    | none => computeAndStore parse_file find_references st key path content

/-!
### PageRank over the repository graph (`src/context/repo_graph.rs`)

Nodes carry dense indices `0..n-1` as in the petgraph representation;
`f64` arithmetic is modelled by exact rationals.  The personalization
map is a per-index optional weight.
-/

/-- The repository reference graph: for each node (by dense index), its
outgoing edge list (target index, accumulated weight). -/
structure PRGraph where
  outs : List (List (Nat × ℚ))
deriving DecidableEq, Repr

/-- Total weight entering node `j` from an edge list. -/
def wsumTo (es : List (Nat × ℚ)) (j : Nat) : ℚ :=
  ((es.filter (fun e => e.1 == j)).map Prod.snd).sum

/-- Total outgoing weight of an edge list. -/
def totW (es : List (Nat × ℚ)) : ℚ :=
  (es.map Prod.snd).sum

/-- Score mass node `i` (with edges `es` and score `s_i`) sends to node
`j` in one iteration: dangling nodes spread uniformly, others spread
proportionally to edge weight. -/
def contrib (d : ℚ) (n : Nat) (es : List (Nat × ℚ)) (s_i : ℚ) (j : Nat) : ℚ :=
  if es.isEmpty then d * s_i / n else d * s_i * (wsumTo es j / totW es)

/-- One PageRank iteration of `RepoGraph::compute_pagerank` (lines
180-224): reset to `(1-d)/N`, distribute through edges, then add the
personalization bonus `(1-d) * weight` for personalized nodes. -/
def pagerank_step (G : PRGraph) (d : ℚ) (pers : Option (List (Option ℚ)))
    (scores : List ℚ) : List ℚ :=
  let n := G.outs.length
  (List.range n).map (fun j =>
    (1 - d) / n
    + ((List.range n).map (fun i => contrib d n (G.outs.getD i []) (scores.getD i 0) j)).sum
    + (match pers with
       | some P => (1 - d) * ((P.getD j none).getD 0)
       | none => 0))

/-- The initial score vector of `compute_pagerank` (lines 147-177):
uniform `1/N`, then personalized entries overwrite their positions and
the vector is renormalized when its sum is positive. -/
def init_scores (G : PRGraph) (pers : Option (List (Option ℚ))) : List ℚ :=
  let n := G.outs.length
  match pers with
  | none => List.replicate n (1 / (n : ℚ))
  | some P =>
    let s1 := (List.range n).map (fun j => (P.getD j none).getD (1 / (n : ℚ)))
    let total := s1.sum
    if 0 < total then s1.map (fun s => s / total) else s1

/-- `RepoGraph::compute_pagerank`: the score vector after `k`
iterations. -/
def compute_pagerank (G : PRGraph) (d : ℚ) (pers : Option (List (Option ℚ))) :
    Nat → List ℚ
| 0 => init_scores G pers
| k + 1 => pagerank_step G d pers (compute_pagerank G d pers k)

/-- Sum of all node scores after `k` iterations. -/
def sum_scores (G : PRGraph) (d : ℚ) (pers : Option (List (Option ℚ))) (k : Nat) : ℚ :=
  (compute_pagerank G d pers k).sum

/-- Insert-or-overwrite on an association list (HashMap `insert`). -/
def alInsert (m : List (String × ℚ)) (k : String) (v : ℚ) : List (String × ℚ) :=
  (k, v) :: m.filter (fun kv => kv.1 ≠ k)

/-- `entry(..).or_insert(v)` on an association list. -/
def alOrInsert (m : List (String × ℚ)) (k : String) (v : ℚ) : List (String × ℚ) :=
  match m.lookup k with
  | some _ => m
  | none => (k, v) :: m

/-- The un-normalized personalization map of `create_personalization`
from `src/context/repo_graph.rs`: weight 10 for chat files, 5 for
mentioned files, 1 for the rest. -/
def create_personalization_raw (chat_files mentioned_files other_files : List String) :
    List (String × ℚ) :=
  let m := chat_files.foldl (fun m f => alInsert m f 10) []
  let m := mentioned_files.foldl (fun m f => alInsert m f 5) m
  other_files.foldl (fun m f => alOrInsert m f 1) m

/-- `create_personalization` from `src/context/repo_graph.rs`: the raw
weights, normalized when the total is positive. -/
def create_personalization (chat_files mentioned_files other_files : List String) :
    List (String × ℚ) :=
  let m := create_personalization_raw chat_files mentioned_files other_files
  let total := (m.map Prod.snd).sum
  if 0 < total then m.map (fun kv => (kv.1, kv.2 / total)) else m

/-!
### Token-budgeted symbol selection (`src/context/ranker.rs`)

The `cl100k_base` tokenizer is the function parameter `tokCount`.
Rust byte lengths coincide with character counts on the ASCII texts the
claims use.
-/

/-- `RankerConfig` from `src/context/ranker.rs`. -/
structure RankerConfig where
  max_tokens : Nat
  damping_factor : ℚ
  pagerank_iterations : Nat
  include_signatures : Bool
  include_doc_comments : Bool
deriving DecidableEq, Repr

/-- A symbol with its importance score (`RankedSymbol` from
`src/context/repo_graph.rs`). -/
structure RankedSymbol where
  symbol : Symbol
  score : ℚ
deriving DecidableEq, Repr

/-- Rust `{:?}` rendering of `SymbolKind`. -/
def SymbolKind.debugStr : SymbolKind → String
| .Function => "Function"
| .ClassK => "Class"
| .Method => "Method"
| .Interface => "Interface"
| .TypeK => "Type"
| .VariableK => "Variable"
| .ImportK => "Import"
| .ModuleK => "Module"

/-- Rust `Path::file_name` on a stored path string. -/
def pathFileName (path : String) : Option String :=
  match (splitOnChar '/' path.data).getLast? with
  | some s => if s.isEmpty then none else some (String.mk s)
  | none => none

/-- The compact text `RepoRanker::estimate_symbol_tokens` builds for one
symbol: file name, line, kind, name, optional signature, optional doc
comment, newline. -/
def symbol_compact_line (config : RankerConfig) (symbol : Symbol) : String :=
  (match pathFileName symbol.file_path with
   | some fn => fn ++ ":"
   | none => "")
  ++ toString symbol.line ++ " "
  ++ symbol.kind.debugStr ++ " " ++ symbol.name
  ++ (if config.include_signatures then
        match symbol.signature with
        | some signature => " " ++ signature
        | none => ""
      else "")
  ++ (if config.include_doc_comments then
        match symbol.doc_comment with
        | some doc => " // " ++ doc
        | none => ""
      else "")
  ++ "\n"

/-- `RepoRanker::estimate_symbol_tokens`: tokenize the compact line. -/
def estimate_symbol_tokens (tokCount : String → Nat) (config : RankerConfig)
    (symbol : Symbol) : Nat :=
  tokCount (symbol_compact_line config symbol)

/-- `RepoRanker::estimate_token_count`: sum the per-symbol counts. -/
def estimate_token_count (tokCount : String → Nat) (config : RankerConfig)
    (symbols : List RankedSymbol) : Nat :=
  (symbols.map (fun rs => estimate_symbol_tokens tokCount config rs.symbol)).sum

/-- The binary-search loop of `RepoRanker::optimize_symbols` (lines
89-104): while `left ≤ right`, probe `mid = (left+right)/2`; on a fit
record it and move right, otherwise move left (stopping at `mid = 0`).
Each round shrinks `right + 1 - left`, so the Rust `while` runs at most
`right + 1 - left` rounds; the first argument is that bound as
structural fuel. -/
def optimize_loop (P : Nat → Bool) : Nat → Nat → Nat → Nat → Nat
| 0, _, _, best => best
| fuel + 1, left, right, best =>
  if left ≤ right then
    let mid := (left + right) / 2
    if P mid then optimize_loop P fuel (mid + 1) right mid
    else if mid = 0 then best
    else optimize_loop P fuel left (mid - 1) best
  else best

/-- `RepoRanker::optimize_symbols`: binary search for the best prefix of
the ranked list whose estimated token count fits the budget (fuel
`length + 1` covers the whole initial `left..right` range). -/
def optimize_symbols (tokCount : String → Nat) (config : RankerConfig)
    (all_symbols : List RankedSymbol) (token_budget : Nat) : List RankedSymbol :=
  if all_symbols.isEmpty then []
  else
    let best_fit := optimize_loop
      (fun mid => decide (estimate_token_count tokCount config (all_symbols.take mid) ≤ token_budget))
      (all_symbols.length + 1) 0 all_symbols.length 0
    all_symbols.take best_fit

/-- Repeat a character (`"=".repeat(50)` and friends). -/
def dupChar (n : Nat) (c : Char) : String := String.mk (List.replicate n c)

/-- `RepoRanker::format_symbol_entry`: indent, kind icon, line, name and
optionally the signature truncated past 60 characters. -/
def format_symbol_entry (config : RankerConfig) (symbol : Symbol) : String :=
  let indent := match symbol.kind with | .Method => "    " | _ => "  "
  let icon := match symbol.kind with
    | .Function => "ƒ"
    | .ClassK => "◆"
    | .Method => "->"
    | .Interface => "◇"
    | .TypeK => "τ"
    | .VariableK => "v"
    | .ImportK => "v"
    | .ModuleK => "□"
  indent ++ icon ++ " " ++ "L" ++ toString symbol.line ++ ": " ++ symbol.name
  ++ (if config.include_signatures then
        match symbol.signature with
        | some signature =>
          let sig := if signature.length > 60 then signature.take 57 ++ "..." else signature
          "\n" ++ indent ++ "  " ++ sig
        | none => ""
      else "")
  ++ "\n"

/-- The `Repository Map` preamble of `format_repository_map`. -/
def repoMapHeader : String := "Repository Map\n" ++ dupChar 50 '=' ++ "\n\n"

/-- `RepoRanker::format_repository_map`: preamble, then symbols grouped
by file with a file-path header and underline before each group. -/
def format_repository_map (config : RankerConfig) (symbols : List RankedSymbol) : String :=
  (symbols.foldl (fun acc rs =>
    let (map, current_file) := acc
    let (map, current_file) :=
      if rs.symbol.file_path ≠ current_file then
        (map ++ "\n" ++ rs.symbol.file_path ++ "\n"
             ++ dupChar rs.symbol.file_path.length '-' ++ "\n",
         rs.symbol.file_path)
      else (map, current_file)
    (map ++ format_symbol_entry config rs.symbol, current_file)) (repoMapHeader, "")).1

/-- `RepoRanker::generate_map`: select under the budget (defaulting to
the configured maximum) and format. -/
def generate_map (tokCount : String → Nat) (config : RankerConfig)
    (all_symbols : List RankedSymbol) (token_budget : Option Nat) : String :=
  let budget := token_budget.getD config.max_tokens
  format_repository_map config (optimize_symbols tokCount config all_symbols budget)

/-- The encoded form as claim C8 words it: symbols grouped by file with a
file header line preceding each group, each symbol in its compact line.
This follows the claim text, for comparison with the counted encoding of
`estimate_token_count`. -/
def claim_encoded_form (config : RankerConfig) (symbols : List RankedSymbol) : String :=
  (symbols.foldl (fun acc rs =>
    let (text, current_file) := acc
    let (text, current_file) :=
      if rs.symbol.file_path ≠ current_file then
        (text ++ rs.symbol.file_path ++ "\n", rs.symbol.file_path)
      else (text, current_file)
    (text ++ symbol_compact_line config rs.symbol, current_file)) ("", "")).1

/-- The selection count as claim C8 words it: the largest `k` whose
claim-encoded top-`k` prefix fits the budget. -/
def claim_best_fit (tokCount : String → Nat) (config : RankerConfig)
    (symbols : List RankedSymbol) (token_budget : Nat) : Nat :=
  Nat.findGreatest
    (fun k => tokCount (claim_encoded_form config (symbols.take k)) ≤ token_budget)
    symbols.length

/-!
### Auxiliary classifiers and concrete example inputs
-/

/-- The error `FileCache::load` raises for each corruption mode of a
stored entry (`none` for a well-formed entry). -/
def corruptErr : StoredEntry → Option CacheError
| .corruptEntry => some .DeserializeError
| .corruptCompressed _ => some .DecompressError
| .corruptPayload _ => some .DeserializeError
| .valid _ _ => none

/-- Whether an action is a `WriteFile`. -/
def isWriteAction : AgentAction → Bool
| .WriteFile _ _ => true
| _ => false

/-- Whether an action is a `ReadFile`. -/
def isReadAction : AgentAction → Bool
| .ReadFile _ => true
| _ => false

/-- Whether an action is an `ExecuteCommand`. -/
def isCommandAction : AgentAction → Bool
| .ExecuteCommand _ _ => true
| _ => false

/-- Per-message token count of the trimming loop: the tokenizer applied
to the singleton counting list. -/
def msgTok (countChat : List (String × String) → Nat) (m : ChatMessage) : Nat :=
  countChat [(roleStr m.role, m.content)]

/-- Total of the per-message token counts of a message list. -/
def keptTok (countChat : List (String × String) → Nat) (l : List ChatMessage) : Nat :=
  (l.map (msgTok countChat)).sum

/-- Example project root `/tmp/proj`. -/
def cwd0 : RPath := ⟨true, ["tmp", "proj"]⟩

/-- Example filesystem: only `/`, `/tmp` and `/tmp/proj` exist. -/
def fs0 : FsState := { files := [], dirs := [[], ["tmp"], ["tmp", "proj"]] }

/-- Example relative path `../missing/x` whose parent does not exist. -/
def pRel : RPath := ⟨false, ["..", "missing", "x"]⟩

/-- Example absolute path `/etc/passwd` outside the project root. -/
def pAbs : RPath := ⟨true, ["etc", "passwd"]⟩

/-- Example relative path `../secret` whose parent `/tmp` exists. -/
def pRel2 : RPath := ⟨false, ["..", "secret"]⟩

/-- Example disk-content reader: `x.rs` holds `v1`. -/
def fsV1 : String → Option String := fun p => if p = "x.rs" then some "v1" else none

/-- Example disk-content reader: `x.rs` holds `v2`. -/
def fsV2 : String → Option String := fun p => if p = "x.rs" then some "v2" else none

/-- Example parser returning no symbols. -/
def parseNil : String → String → Except CacheError (List Symbol) := fun _ _ => .ok []

/-- Example reference finder returning no references. -/
def refsNil : String → String → Except CacheError (List SymbolReference) := fun _ _ => .ok []

/-- Example cache state whose disk tier holds a corrupt entry at the key
of `x.rs` with content `v1` (under the identity digest). -/
def stCorrupt : CacheState :=
  { mem := []
    disk := fun p =>
      if p = cache_path ⟨"x.rs", "v1"⟩ then some (.corruptCompressed ⟨"x.rs", "v1"⟩) else none
    hits := 0
    misses := 0 }

/-- Example empty cache state. -/
def stEmpty : CacheState := { mem := [], disk := fun _ => none, hits := 0, misses := 0 }

/-- Example tokenizer charging 500 tokens per content character. -/
def ccLen : List (String × String) → Nat := fun l => (l.map (fun rc => 500 * rc.2.length)).sum

/-- Example tokenizer charging a flat 500 tokens per message. -/
def cc500 : List (String × String) → Nat := fun l => 500 * l.length

/-- Example user message with a 1000-token content under `ccLen`. -/
def mA : ChatMessage := ⟨.User, "ab", 0⟩

/-- Example assistant message with a 1500-token content under `ccLen`. -/
def mB : ChatMessage := ⟨.Assistant, "abc", 1⟩

/-- Example history of ten user/assistant messages, timestamps 0-9. -/
def tenMsgs : List ChatMessage :=
  [⟨.User, "m0", 0⟩, ⟨.Assistant, "m1", 1⟩, ⟨.User, "m2", 2⟩, ⟨.Assistant, "m3", 3⟩,
   ⟨.User, "m4", 4⟩, ⟨.Assistant, "m5", 5⟩, ⟨.User, "m6", 6⟩, ⟨.Assistant, "m7", 7⟩,
   ⟨.User, "m8", 8⟩, ⟨.Assistant, "m9", 9⟩]

/-- Example one-node dangling graph. -/
def G1 : PRGraph := ⟨[[]]⟩

/-- Example personalization putting weight 1 on the single node. -/
def pers1 : Option (List (Option ℚ)) := some [some 1]

/-- Example two-node graph with edges in both directions. -/
def G2 : PRGraph := ⟨[[(1, 2)], [(0, 1)]]⟩

/-- Example symbol whose compact line is `a.rs:1 Function f` (18
characters with its newline). -/
def sym0 : Symbol := ⟨"f", .Function, "a.rs", 1, none, none⟩

/-- Example ranked symbol wrapping `sym0`. -/
def rs0 : RankedSymbol := ⟨sym0, 1⟩

/-- Example ranker configuration (the `Default` of `RankerConfig`). -/
def cfg0 : RankerConfig := ⟨1024, 17/20, 30, true, false⟩

/-- Example conversation with one message. -/
def convEx : ConversationHistory :=
  ⟨"20240101_000000", "hello", [⟨.User, "hello", 5⟩], "llama3", "/tmp/proj", 4, 6, some 7⟩

/-!
## Theorems

General-purpose helper lemmas first, then one theorem per claim (with
its counterexample and witness where applicable).
-/

theorem exceptBind_ok {α β ε : Type _} (a : α) (f : α → Except ε β) :
    (Except.ok a >>= f : Except ε β) = f a := rfl

theorem exceptBind_err {α β ε : Type _} (e : ε) (f : α → Except ε β) :
    (Except.error e >>= f : Except ε β) = .error e := rfl

theorem exceptMap_ok {α β ε : Type _} (a : α) (f : α → β) :
    (Except.ok a : Except ε α).map f = .ok (f a) := rfl

theorem exceptMap_err {α β ε : Type _} (e : ε) (f : α → β) :
    (Except.error e : Except ε α).map f = .error e := rfl

theorem listContainsSub_of_isPrefix {needle hay : List Char}
    (h : needle <+: hay) : listContainsSub needle hay = true := by
  cases hay with
  | nil =>
    have : needle = [] := List.prefix_nil.mp h
    subst this
    rfl
  | cons a as =>
    have : needle.isPrefixOf (a :: as) = true := by
      rw [List.isPrefixOf_iff_prefix]
      exact h
    simp [listContainsSub, this]

theorem strContains_of_prefix (pre s pat : String)
    (h : pat.data <+: pre.data) : strContains (pre ++ s) pat = true := by
  have : pat.data <+: (pre ++ s).data := by
    rw [String.data_append]
    exact h.trans (List.prefix_append _ _)
  exact listContainsSub_of_isPrefix this

/-- C2: in BypassAll mode with the latch clear, the first `execute` of a
destructive action returns the warning result without running the
action and sets `bypass_confirmed`; the immediately following second
`execute` of the same action runs it and clears the latch. -/
theorem bypassall_destructive_double_confirm (st : ModeAwareExecutor) (op : AgentAction)
    (run1 run2 : AgentAction → ActionResult)
    (hm : st.mode = .BypassAll) (hd : is_destructive op = true)
    (hb : st.bypass_confirmed = false) :
    (st.execute op run1).result = .Success (bypassWarningText op) ∧
    (st.execute op run1).executed = [] ∧
    (st.execute op run1).state.bypass_confirmed = true ∧
    ((st.execute op run1).state.execute op run2).executed = [op] ∧
    ((st.execute op run1).state.execute op run2).state.bypass_confirmed = false := by
  obtain ⟨mode, bc⟩ := st
  simp only [ModeAwareExecutor.mode] at hm
  simp only [ModeAwareExecutor.bypass_confirmed] at hb
  subst hm hb
  simp [ModeAwareExecutor.execute, OperationMode.is_planning_only, hd]

theorem bypassall_double_confirm_witness :
    (ModeAwareExecutor.mk .BypassAll false).mode = .BypassAll ∧
    is_destructive (.DeleteFile "old.txt") = true ∧
    (ModeAwareExecutor.mk .BypassAll false).bypass_confirmed = false ∧
    (((ModeAwareExecutor.mk .BypassAll false).execute (.DeleteFile "old.txt")
        (fun _ => .Success "done")).result =
      .Success (bypassWarningText (.DeleteFile "old.txt")) ∧
     ((ModeAwareExecutor.mk .BypassAll false).execute (.DeleteFile "old.txt")
        (fun _ => .Success "done")).executed = [] ∧
     ((ModeAwareExecutor.mk .BypassAll false).execute (.DeleteFile "old.txt")
        (fun _ => .Success "done")).state.bypass_confirmed = true ∧
     (((ModeAwareExecutor.mk .BypassAll false).execute (.DeleteFile "old.txt")
        (fun _ => .Success "done")).state.execute (.DeleteFile "old.txt")
        (fun _ => .Success "done")).executed = [.DeleteFile "old.txt"] ∧
     (((ModeAwareExecutor.mk .BypassAll false).execute (.DeleteFile "old.txt")
        (fun _ => .Success "done")).state.execute (.DeleteFile "old.txt")
        (fun _ => .Success "done")).state.bypass_confirmed = false) :=
  ⟨rfl, by decide, rfl,
   bypassall_destructive_double_confirm (ModeAwareExecutor.mk .BypassAll false)
     (.DeleteFile "old.txt") (fun _ => .Success "done") (fun _ => .Success "done")
     rfl (by decide) rfl⟩

/-- C10: the `bypass_confirmed` latch is executor-wide, not per-action:
after any destructive action's warning in BypassAll, the next destructive
action — even a different one — runs immediately with the decorated
result of `execute_action` and the latch clears; and whenever the latch
is set and the mode is not planning-only, `execute` runs the action and
clears the latch. -/
theorem bypass_latch_is_executor_wide :
    (∀ (st : ModeAwareExecutor) (op op2 : AgentAction) (run1 run2 : AgentAction → ActionResult),
      st.mode = .BypassAll → st.bypass_confirmed = false →
      is_destructive op = true → is_destructive op2 = true →
      ((st.execute op run1).state.execute op2 run2).executed = [op2] ∧
      ((st.execute op run1).state.execute op2 run2).result =
        (match run2 op2 with
         | .Success output => .Success ("[B] " ++ output)
         | other => other) ∧
      ((st.execute op run1).state.execute op2 run2).state.bypass_confirmed = false) ∧
    (∀ (st : ModeAwareExecutor) (op : AgentAction) (run : AgentAction → ActionResult),
      st.bypass_confirmed = true → st.mode.is_planning_only = false →
      (st.execute op run).executed = [op] ∧
      (st.execute op run).state.bypass_confirmed = false) := by
  constructor
  · intro st op op2 run1 run2 hm hb hd hd2
    obtain ⟨mode, bc⟩ := st
    simp only [ModeAwareExecutor.mode] at hm
    simp only [ModeAwareExecutor.bypass_confirmed] at hb
    subst hm hb
    simp [ModeAwareExecutor.execute, OperationMode.is_planning_only, hd, hd2,
          OperationMode.short_name]
  · intro st op run hb hp
    obtain ⟨mode, bc⟩ := st
    simp only [ModeAwareExecutor.bypass_confirmed] at hb
    subst hb
    simp only [ModeAwareExecutor.mode] at hp
    simp [ModeAwareExecutor.execute, hp]

theorem bypass_latch_witness :
    ((ModeAwareExecutor.mk .BypassAll false).mode = .BypassAll ∧
     (ModeAwareExecutor.mk .BypassAll false).bypass_confirmed = false ∧
     is_destructive (.DeleteFile "old.txt") = true ∧
     is_destructive (.ExecuteCommand "rm -rf target" none) = true ∧
     ((((ModeAwareExecutor.mk .BypassAll false).execute (.DeleteFile "old.txt")
         (fun _ => .Success "done")).state.execute (.ExecuteCommand "rm -rf target" none)
         (fun _ => .Success "gone")).executed = [.ExecuteCommand "rm -rf target" none] ∧
      (((ModeAwareExecutor.mk .BypassAll false).execute (.DeleteFile "old.txt")
         (fun _ => .Success "done")).state.execute (.ExecuteCommand "rm -rf target" none)
         (fun _ => .Success "gone")).result = .Success ("[B] " ++ "gone") ∧
      (((ModeAwareExecutor.mk .BypassAll false).execute (.DeleteFile "old.txt")
         (fun _ => .Success "done")).state.execute (.ExecuteCommand "rm -rf target" none)
         (fun _ => .Success "gone")).state.bypass_confirmed = false)) ∧
    ((ModeAwareExecutor.mk .AcceptEdits true).bypass_confirmed = true ∧
     (ModeAwareExecutor.mk .AcceptEdits true).mode.is_planning_only = false ∧
     (((ModeAwareExecutor.mk .AcceptEdits true).execute (.ReadFile "f.txt")
        (fun _ => .Success "text")).executed = [.ReadFile "f.txt"] ∧
      ((ModeAwareExecutor.mk .AcceptEdits true).execute (.ReadFile "f.txt")
        (fun _ => .Success "text")).state.bypass_confirmed = false)) :=
  ⟨⟨rfl, rfl, by decide, by decide,
    bypass_latch_is_executor_wide.1 (ModeAwareExecutor.mk .BypassAll false)
      (.DeleteFile "old.txt") (.ExecuteCommand "rm -rf target" none)
      (fun _ => .Success "done") (fun _ => .Success "gone")
      rfl rfl (by decide) (by decide)⟩,
   ⟨rfl, rfl,
    bypass_latch_is_executor_wide.2 (ModeAwareExecutor.mk .AcceptEdits true)
      (.ReadFile "f.txt") (fun _ => .Success "text") rfl rfl⟩⟩

/-- C1: counterexample to the claim as stated.  With root `/tmp/proj`,
writing `../missing/x` (whose parent does not exist) succeeds and
creates `/tmp/missing/x` although the canonical resolved path escapes
the root; and reading `/etc/passwd` is rejected with the
`Access denied` message, which does not contain `Security`. -/
theorem sandbox_claim_counterexample :
    write_file fs0 cwd0 pRel "x" =
      .ok { files := [(["tmp", "missing", "x"], "x")]
            dirs := [[], ["tmp"], ["tmp", "missing"], [], ["tmp"], ["tmp", "proj"]] } ∧
    (RPath.mk true (resolveDots [] (cwd0.join pRel).comps)).starts_with cwd0 = false ∧
    read_file fs0 cwd0 pAbs = .error .AccessDenied ∧
    strContains (FsError.message .AccessDenied) "Security" = false := by
  refine ⟨by rfl, by decide, by rfl, by decide⟩

/-- C1 (amended): absolute paths outside the root are rejected up front
with the `Access denied` error, whose text does not contain `Security`;
and whenever the canonical path `validate_path` computes fails the
root-prefix check, all four file operations reject with a
`Security error` whose text contains `Security`.  (Relative paths whose
parent does not exist evade the canonical check, as the counterexample
shows.) -/
theorem sandbox_escape_rejection :
    (∀ (fs : FsState) (cwd p : RPath) (content : String),
      p.absolute = true → p.starts_with cwd = false →
        write_file fs cwd p content = .error .AccessDenied ∧
        read_file fs cwd p = .error .AccessDenied ∧
        delete_file fs cwd p = .error .AccessDenied ∧
        create_directory fs cwd p = .error .AccessDenied ∧
        strContains (FsError.message .AccessDenied) "Security" = false) ∧
    (∀ (fs : FsState) (cwd p path : RPath) (content : String),
      normalize_path cwd p = .ok path →
      (canonicalOf fs path).starts_with cwd = false →
        write_file fs cwd p content = .error (.SecurityOutside path) ∧
        read_file fs cwd p = .error (.SecurityOutside path) ∧
        delete_file fs cwd p = .error (.SecurityOutside path) ∧
        create_directory fs cwd p = .error (.SecurityOutside path) ∧
        strContains (FsError.message (.SecurityOutside path)) "Security" = true) := by
  constructor
  · intro fs cwd p content habs hsw
    have hn : normalize_path cwd p = .error .AccessDenied := by
      simp [normalize_path, habs, hsw]
    refine ⟨?_, ?_, ?_, ?_, by decide⟩ <;>
      simp [write_file, read_file, delete_file, create_directory, hn, exceptBind_err]
  · intro fs cwd p path content hnorm hcanon
    have hv : validate_path fs cwd path = .error (.SecurityOutside path) := by
      simp [validate_path, hcanon]
    have hmsg : strContains (FsError.message (.SecurityOutside path)) "Security" = true := by
      have : FsError.message (.SecurityOutside path) =
          "Security error: attempted to access path outside of project directory: "
            ++ path.render := rfl
      rw [this]
      exact strContains_of_prefix _ _ _ (by decide)
    refine ⟨?_, ?_, ?_, ?_, hmsg⟩ <;>
      simp [write_file, read_file, delete_file, create_directory, hnorm, hv,
            exceptBind_ok, exceptBind_err]

theorem sandbox_escape_rejection_witness :
    (pAbs.absolute = true ∧ pAbs.starts_with cwd0 = false ∧
      (write_file fs0 cwd0 pAbs "x" = .error .AccessDenied ∧
       read_file fs0 cwd0 pAbs = .error .AccessDenied ∧
       delete_file fs0 cwd0 pAbs = .error .AccessDenied ∧
       create_directory fs0 cwd0 pAbs = .error .AccessDenied ∧
       strContains (FsError.message .AccessDenied) "Security" = false)) ∧
    (normalize_path cwd0 pRel2 = .ok ⟨true, ["tmp", "proj", "..", "secret"]⟩ ∧
      (canonicalOf fs0 ⟨true, ["tmp", "proj", "..", "secret"]⟩).starts_with cwd0 = false ∧
      (write_file fs0 cwd0 pRel2 "x" =
         .error (.SecurityOutside ⟨true, ["tmp", "proj", "..", "secret"]⟩) ∧
       read_file fs0 cwd0 pRel2 =
         .error (.SecurityOutside ⟨true, ["tmp", "proj", "..", "secret"]⟩) ∧
       delete_file fs0 cwd0 pRel2 =
         .error (.SecurityOutside ⟨true, ["tmp", "proj", "..", "secret"]⟩) ∧
       create_directory fs0 cwd0 pRel2 =
         .error (.SecurityOutside ⟨true, ["tmp", "proj", "..", "secret"]⟩) ∧
       strContains (FsError.message
         (.SecurityOutside ⟨true, ["tmp", "proj", "..", "secret"]⟩)) "Security" = true)) :=
  ⟨⟨rfl, by decide,
    sandbox_escape_rejection.1 fs0 cwd0 pAbs "x" rfl (by decide)⟩,
   ⟨by rfl, by decide,
    sandbox_escape_rejection.2 fs0 cwd0 pRel2 ⟨true, ["tmp", "proj", "..", "secret"]⟩ "x"
      (by rfl) (by decide)⟩⟩

/-- C3: counterexample to the claim as stated.  With `x.rs` holding `v2`
on disk and caller content `v1`, the cache key's hash is the digest of
the on-disk `v2`, not of the passed `v1`: the state after
`get_or_compute_symbols` holds the entry under the `v2` key and nothing
under the `v1` key. -/
theorem cache_key_counterexample :
    generate_key (fun s => s) fsV2 "x.rs" = .ok ⟨"x.rs", "v2"⟩ ∧
    (CacheKey.mk "x.rs" "v2") ≠ ⟨"x.rs", (fun (s : String) => s) "v1"⟩ ∧
    (get_or_compute_symbols (fun s => s) fsV2 parseNil refsNil stEmpty "x.rs" "v1").map
      (fun r => r.2.mem.lookup ⟨"x.rs", "v2"⟩) = .ok (some ⟨[], []⟩) ∧
    (get_or_compute_symbols (fun s => s) fsV2 parseNil refsNil stEmpty "x.rs" "v1").map
      (fun r => r.2.mem.lookup ⟨"x.rs", "v1"⟩) = .ok none := by
  refine ⟨by rfl, by decide, by rfl, by rfl⟩

/-- C3 (amended): the cache key's hash is computed by re-reading the
bytes of the file at `p` from disk (`fs::read` inside
`FileCache::hash_file`), independent of the caller-provided content;
in particular a memory-tier hit is keyed by the on-disk digest and
returns the cached symbols whatever content the caller passes. -/
theorem cache_key_from_disk (hashFn : String → String) (fsRead : String → Option String)
    (path d : String) (h : fsRead path = some d) :
    generate_key hashFn fsRead path = .ok ⟨path, hashFn d⟩ ∧
    (∀ (parse_file : String → String → Except CacheError (List Symbol))
       (find_references : String → String → Except CacheError (List SymbolReference))
       (st : CacheState) (cached : CachedSymbols) (content : String),
       st.mem.lookup ⟨path, hashFn d⟩ = some cached →
       (get_or_compute_symbols hashFn fsRead parse_file find_references st path content).map
         (fun r => r.1) = .ok (cached.symbols, cached.references)) := by
  have hk : generate_key hashFn fsRead path = .ok ⟨path, hashFn d⟩ := by
    simp [generate_key, hash_file, h, exceptMap_ok]
  refine ⟨hk, ?_⟩
  intro parse_file find_references st cached content hmem
  simp [get_or_compute_symbols, hk, exceptBind_ok, hmem, exceptMap_ok]

theorem cache_key_from_disk_witness :
    fsV2 "x.rs" = some "v2" ∧
    generate_key (fun s => s) fsV2 "x.rs" = .ok ⟨"x.rs", (fun (s : String) => s) "v2"⟩ ∧
    ({ mem := [(⟨"x.rs", "v2"⟩, ⟨[], []⟩)], disk := fun _ => none, hits := 0, misses := 0 }
        : CacheState).mem.lookup ⟨"x.rs", (fun (s : String) => s) "v2"⟩ =
      some ⟨[], []⟩ ∧
    (get_or_compute_symbols (fun s => s) fsV2 parseNil refsNil
      { mem := [(⟨"x.rs", "v2"⟩, ⟨[], []⟩)], disk := fun _ => none, hits := 0, misses := 0 }
      "x.rs" "completely-different-content").map (fun r => r.1) =
      .ok (([] : List Symbol), ([] : List SymbolReference)) :=
  ⟨by rfl,
   (cache_key_from_disk (fun s => s) fsV2 "x.rs" "v2" (by rfl)).1,
   by rfl,
   (cache_key_from_disk (fun s => s) fsV2 "x.rs" "v2" (by rfl)).2 parseNil refsNil
     _ ⟨[], []⟩ "completely-different-content" (by rfl)⟩

/-- C4: counterexample to the claim as stated.  With a decompression-
corrupt entry on disk for the key of `x.rs`, `get_or_compute_symbols`
returns an error instead of treating the lookup as a miss, removing the
entry and parsing fresh symbols. -/
theorem cache_corruption_counterexample :
    stCorrupt.disk (cache_path ⟨"x.rs", "v1"⟩) = some (.corruptCompressed ⟨"x.rs", "v1"⟩) ∧
    (get_or_compute_symbols (fun s => s) fsV1 parseNil refsNil stCorrupt "x.rs" "v1").map
      (fun r => r.1) = .error .DecompressError := by
  refine ⟨by decide, by rfl⟩

/-- C4 (amended): when the on-disk entry for the key is corrupt (outer
deserialization, decompression/size mismatch, or payload
deserialization) and the memory tier misses, `get_or_compute_symbols`
propagates the corresponding error; the entry is not removed and no
fresh parse is returned. -/
theorem cache_corruption_propagates (hashFn : String → String)
    (fsRead : String → Option String)
    (parse_file : String → String → Except CacheError (List Symbol))
    (find_references : String → String → Except CacheError (List SymbolReference))
    (st : CacheState) (path content : String) (key : CacheKey) (e : StoredEntry)
    (err : CacheError)
    (hkey : generate_key hashFn fsRead path = .ok key)
    (hmem : st.mem.lookup key = none)
    (hdisk : st.disk (cache_path key) = some e)
    (hcorrupt : corruptErr e = some err) :
    (get_or_compute_symbols hashFn fsRead parse_file find_references st path content).map
      (fun r => r.1) = .error err := by
  have hload : FileCache.load st.disk key = .error err := by
    cases e with
    | corruptEntry =>
      simp [corruptErr] at hcorrupt
      subst hcorrupt
      simp [FileCache.load, hdisk]
    | corruptCompressed k =>
      simp [corruptErr] at hcorrupt
      subst hcorrupt
      simp [FileCache.load, hdisk]
    | corruptPayload k =>
      simp [corruptErr] at hcorrupt
      subst hcorrupt
      simp [FileCache.load, hdisk]
    | valid k p => simp [corruptErr] at hcorrupt
  simp [get_or_compute_symbols, hkey, hmem, hload, exceptBind_ok, exceptBind_err,
        exceptMap_err]

theorem cache_corruption_witness :
    generate_key (fun s => s) fsV1 "x.rs" = .ok ⟨"x.rs", "v1"⟩ ∧
    stCorrupt.mem.lookup ⟨"x.rs", "v1"⟩ = none ∧
    stCorrupt.disk (cache_path ⟨"x.rs", "v1"⟩) = some (.corruptCompressed ⟨"x.rs", "v1"⟩) ∧
    corruptErr (.corruptCompressed ⟨"x.rs", "v1"⟩) = some .DecompressError ∧
    (get_or_compute_symbols (fun s => s) fsV1 parseNil refsNil stCorrupt "x.rs" "v1").map
      (fun r => r.1) = .error .DecompressError :=
  ⟨by rfl, by rfl, by decide, by rfl,
   cache_corruption_propagates (fun s => s) fsV1 parseNil refsNil stCorrupt "x.rs" "v1"
     ⟨"x.rs", "v1"⟩ (.corruptCompressed ⟨"x.rs", "v1"⟩) .DecompressError
     (by rfl) (by rfl) (by decide) (by rfl)⟩

/-- C6: counterexample to the claim as stated.  For a text holding
`[GIT_STATUS]` before `[GIT_DIFF]`, `parse_actions` emits GitDiff before
GitStatus, not GIT_STATUS first as the claim orders them. -/
theorem parse_actions_git_order_counterexample :
    parse_actions "[GIT_STATUS][GIT_DIFF]" = [.GitDiff none, .GitStatus] ∧
    parse_actions "[GIT_STATUS][GIT_DIFF]" ≠ [.GitStatus, .GitDiff none] := by
  refine ⟨by rfl, by decide⟩

/-- C6 (amended): `parse_actions` returns the FILE_WRITE actions, then
FILE_READ, then COMMAND, then `[GIT_DIFF]` and then `[GIT_STATUS]` (git
diff before git status), each block segment in source order; on the
claimed concrete input the result is `[WriteFile b, ReadFile a,
ExecuteCommand ls]`, and blocks of one type keep source order. -/
theorem parse_actions_ordering :
    (∀ response : String, ∃ ws rs cs,
      parse_actions response =
        ws ++ rs ++ cs
        ++ ((if strContains response "[GIT_DIFF]" then [AgentAction.GitDiff none] else [])
        ++ (if strContains response "[GIT_STATUS]" then [AgentAction.GitStatus] else [])) ∧
      ws.all isWriteAction = true ∧ rs.all isReadAction = true ∧
      cs.all isCommandAction = true) ∧
    parse_actions
        "please [FILE_READ: a][/FILE_READ] then [FILE_WRITE: b]content-b[/FILE_WRITE] and [COMMAND: ls][/COMMAND]"
      = [.WriteFile "b" "content-b", .ReadFile "a", .ExecuteCommand "ls" none] ∧
    parse_actions "[FILE_WRITE: b1]one[/FILE_WRITE][FILE_WRITE: b2]two[/FILE_WRITE]"
      = [.WriteFile "b1" "one", .WriteFile "b2" "two"] := by
  refine ⟨?_, by rfl, by rfl⟩
  intro response
  refine ⟨write_actions response, read_actions response, command_actions response,
          ?_, ?_, ?_, ?_⟩
  · rfl
  · rw [List.all_eq_true]
    intro a ha
    match hx : extract_block response "FILE_WRITE" with
    | none => simp [write_actions, hx] at ha
    | some captures =>
      simp only [write_actions, hx, List.mem_filterMap] at ha
      obtain ⟨capture, _, hmap⟩ := ha
      match hp : extract_path_from_header capture "FILE_WRITE" with
      | none => rw [hp] at hmap; simp at hmap
      | some path => rw [hp] at hmap; simp at hmap; subst hmap; rfl
  · rw [List.all_eq_true]
    intro a ha
    match hx : extract_block response "FILE_READ" with
    | none => simp [read_actions, hx] at ha
    | some captures =>
      simp only [read_actions, hx, List.mem_filterMap] at ha
      obtain ⟨capture, _, hmap⟩ := ha
      match hp : extract_path_from_header capture "FILE_READ" with
      | none => rw [hp] at hmap; simp at hmap
      | some path => rw [hp] at hmap; simp at hmap; subst hmap; rfl
  · rw [List.all_eq_true]
    intro a ha
    match hx : extract_block response "COMMAND" with
    | none => simp [command_actions, hx] at ha
    | some captures =>
      simp only [command_actions, hx, List.mem_filterMap] at ha
      obtain ⟨capture, _, hmap⟩ := ha
      match hp : extract_path_from_header capture "COMMAND" with
      | none => rw [hp] at hmap; simp at hmap
      | some cmd =>
        rw [hp] at hmap
        simp at hmap
        match hd : findSubIdx " dir=".data cmd.data with
        | some dir_pos => rw [hd] at hmap; subst hmap; rfl
        | none => rw [hd] at hmap; subst hmap; rfl

theorem chatMessage_roundtrip (m : ChatMessage) :
    ChatMessage.fromJson? (ChatMessage.toJson m) = some m := by
  obtain ⟨role, content, ts⟩ := m
  cases role <;> rfl

theorem mapM_loop_roundtrip (ms : List ChatMessage) : ∀ acc,
    List.mapM.loop ChatMessage.fromJson? (ms.map ChatMessage.toJson) acc =
      some (acc.reverse ++ ms) := by
  induction ms with
  | nil => intro acc; simp [List.mapM.loop]
  | cons m rest ih =>
    intro acc
    simp [List.mapM.loop, chatMessage_roundtrip, ih (m :: acc)]

/-- C9: saving a conversation and loading it back by its id yields an
equal record (same id, title, messages, model identifier, project path,
timestamps and token total). -/
theorem conversation_roundtrip (conv : ConversationHistory) (store : ConvStore)
    (h : 1 ≤ conv.messages.length) :
    load_conversation conv.id (save_conversation conv store) = some conv := by
  obtain ⟨id, title, messages, model_name, project_path, created_at, updated_at, tt⟩ := conv
  have hmm := mapM_loop_roundtrip messages []
  cases tt <;>
    simp [load_conversation, save_conversation, ConversationHistory.toJson,
          ConversationHistory.fromJson?, List.lookup, hmm]

theorem conversation_roundtrip_witness :
    1 ≤ convEx.messages.length ∧
    load_conversation convEx.id (save_conversation convEx (fun _ => none)) = some convEx :=
  ⟨by decide, conversation_roundtrip convEx (fun _ => none) (by decide)⟩

theorem trim_loop_shape (cc : List (String × String) → Nat) (avail : Nat) :
    ∀ (l kept : List ChatMessage) (cur : Nat),
      ∃ m, m ≤ l.length ∧ (kept = [] → l ≠ [] → 1 ≤ m) ∧
        trim_loop cc avail l kept cur = kept ++ l.take m := by
  intro l
  induction l with
  | nil =>
    intro kept cur
    exact ⟨0, by simp, fun _ h => absurd rfl h, by simp [trim_loop]⟩
  | cons msg rest ih =>
    intro kept cur
    by_cases hfit : cur + cc [(roleStr msg.role, msg.content)] ≤ avail
    · obtain ⟨m, hm, _, heq⟩ := ih (kept ++ [msg]) (cur + cc [(roleStr msg.role, msg.content)])
      refine ⟨m + 1, by simpa using hm, fun _ _ => by omega, ?_⟩
      simp only [trim_loop, if_pos hfit, heq, List.take_succ_cons, List.append_assoc,
                 List.singleton_append]
    · by_cases hk : kept.length < 2
      · exact ⟨1, by simp, fun _ _ => le_refl 1, by simp [trim_loop, if_neg hfit, hk]⟩
      · refine ⟨0, by simp, fun hkept _ => ?_, by simp [trim_loop, if_neg hfit, hk]⟩
        exact absurd (by simp [hkept]) hk

theorem trim_loop_budget (cc : List (String × String) → Nat) (avail : Nat) :
    ∀ (l kept : List ChatMessage) (cur : Nat),
      keptTok cc kept = cur → cur ≤ avail →
      keptTok cc (trim_loop cc avail l kept cur) ≤ avail ∨
        (trim_loop cc avail l kept cur).length ≤ 2 := by
  intro l
  induction l with
  | nil =>
    intro kept cur hsum hle
    left
    simpa [trim_loop, hsum] using hle
  | cons msg rest ih =>
    intro kept cur hsum hle
    by_cases hfit : cur + cc [(roleStr msg.role, msg.content)] ≤ avail
    · have hsum' : keptTok cc (kept ++ [msg]) = cur + cc [(roleStr msg.role, msg.content)] := by
        simp [keptTok, msgTok, hsum.symm]
      have := ih (kept ++ [msg]) (cur + cc [(roleStr msg.role, msg.content)]) hsum' hfit
      simpa [trim_loop, if_pos hfit] using this
    · by_cases hk : kept.length < 2
      · right
        simp only [trim_loop, if_neg hfit, if_pos hk, List.length_append, List.length_cons,
                   List.length_nil]
        omega
      · left
        simp only [trim_loop, if_neg hfit, if_neg hk, hsum]
        exact hle

theorem head?_take_of_pos {α : Type _} (l : List α) (m : Nat) (hm : 1 ≤ m) :
    (l.take m).head? = l.head? := by
  cases l with
  | nil => simp
  | cons a as =>
    match m, hm with
    | m + 1, _ => simp

/-- C5: counterexample to the claim as stated.  With a 1000-token and a
1500-token message and available budget 1500, the code admits the newest
message and then also the next (non-fitting) one, because it keeps at
least one message pair, returning both messages with 2500 total tokens;
the claimed admit-until-overflow algorithm returns only the newest. -/
theorem history_trimming_counterexample :
    build_managed_message_history ccLen 2000 500 [mA, mB] = [mA, mB] ∧
    claim_build_history ccLen 2000 500 [mA, mB] = [mB] ∧
    keptTok ccLen (build_managed_message_history ccLen 2000 500 [mA, mB]) = 2500 ∧
    build_managed_message_history ccLen 2000 500 [mA, mB] ≠
      claim_build_history ccLen 2000 500 [mA, mB] := by
  refine ⟨by decide, by decide, by decide, by decide⟩

theorem build_history_shape (cc : List (String × String) → Nat) (mx rs : Nat)
    (msgs : List ChatMessage) :
    build_managed_message_history cc mx rs msgs =
        msgs.filter (fun m => m.role == MessageRole.User || m.role == MessageRole.Assistant) ∨
      (∃ m, 1 ≤ m ∧
        build_managed_message_history cc mx rs msgs =
          ((msgs.filter
              (fun m => m.role == MessageRole.User ||
                m.role == MessageRole.Assistant)).reverse.take m).reverse ∧
        build_managed_message_history cc mx rs msgs =
          (trim_loop cc (mx - rs)
            (msgs.filter (fun m => m.role == MessageRole.User ||
              m.role == MessageRole.Assistant)).reverse [] 0).reverse) := by
  set all := msgs.filter (fun m => m.role == MessageRole.User || m.role == MessageRole.Assistant)
    with hall
  by_cases hemp : all.isEmpty
  · left
    have : all = [] := by simpa [List.isEmpty_iff] using hemp
    simp [build_managed_message_history, ← hall, hemp, this]
  · by_cases htot : cc (all.map (fun m => (roleStr m.role, m.content))) ≤ mx - rs
    · left
      simp [build_managed_message_history, ← hall, hemp, htot]
    · right
      have hne : all ≠ [] := by simpa [List.isEmpty_iff] using hemp
      have hbuild : build_managed_message_history cc mx rs msgs =
          (trim_loop cc (mx - rs) all.reverse [] 0).reverse := by
        simp [build_managed_message_history, ← hall, hemp, htot]
      obtain ⟨m, hmle, hm1, heq⟩ := trim_loop_shape cc (mx - rs) all.reverse [] 0
      refine ⟨m, hm1 rfl (by simpa using hne), ?_, hbuild⟩
      rw [hbuild, heq]
      simp



/-- C5 (amended): `build_managed_message_history` returns a contiguous
suffix of the filtered user/assistant history (chronological order),
always keeps the most recent message, and admits newest-first until a
message does not fit — except that the first non-fitting message is
still admitted while fewer than two messages are kept, so the result
either is the whole history, or fits the available budget, or has at
most two messages; on ten 500-token messages with budget 2000 and
reserve 500 it returns exactly the three most recent, totalling at most
1500 tokens. -/
theorem history_trimming :
    (∀ (cc : List (String × String) → Nat) (mx rs : Nat) (msgs : List ChatMessage),
      ∃ k, build_managed_message_history cc mx rs msgs =
        (msgs.filter
          (fun m => m.role == MessageRole.User || m.role == MessageRole.Assistant)).drop k) ∧
    (∀ (cc : List (String × String) → Nat) (mx rs : Nat) (msgs : List ChatMessage),
      (build_managed_message_history cc mx rs msgs).getLast? =
        (msgs.filter
          (fun m => m.role == MessageRole.User || m.role == MessageRole.Assistant)).getLast?) ∧
    (∀ (cc : List (String × String) → Nat) (mx rs : Nat) (msgs : List ChatMessage),
      build_managed_message_history cc mx rs msgs =
          msgs.filter (fun m => m.role == MessageRole.User || m.role == MessageRole.Assistant) ∨
        keptTok cc (build_managed_message_history cc mx rs msgs) ≤ mx - rs ∨
        (build_managed_message_history cc mx rs msgs).length ≤ 2) ∧
    (build_managed_message_history cc500 2000 500 tenMsgs =
        [⟨.Assistant, "m7", 7⟩, ⟨.User, "m8", 8⟩, ⟨.Assistant, "m9", 9⟩] ∧
      keptTok cc500 (build_managed_message_history cc500 2000 500 tenMsgs) ≤ 1500) := by
  refine ⟨?_, ?_, ?_, by decide, by decide⟩
  · intro cc mx rs msgs
    rcases build_history_shape cc mx rs msgs with h | ⟨m, _, h, _⟩
    · exact ⟨0, by simpa using h⟩
    · refine ⟨(msgs.filter
          (fun m => m.role == MessageRole.User || m.role == MessageRole.Assistant)).length - m, ?_⟩
      rw [h, List.take_reverse, List.reverse_reverse]
  · intro cc mx rs msgs
    rcases build_history_shape cc mx rs msgs with h | ⟨m, hm1, h, _⟩
    · rw [h]
    · rw [h, List.getLast?_reverse, head?_take_of_pos _ _ hm1, List.head?_reverse]
  · intro cc mx rs msgs
    rcases build_history_shape cc mx rs msgs with h | ⟨m, hm1, _, h⟩
    · exact Or.inl h
    · right
      rcases trim_loop_budget cc (mx - rs)
          ((msgs.filter
            (fun m => m.role == MessageRole.User ||
              m.role == MessageRole.Assistant)).reverse) [] 0 (by simp [keptTok]) (by omega)
        with hb | hb
      · left
        rw [h]
        simpa [keptTok, List.map_reverse, List.sum_reverse] using hb
      · right
        rw [h]
        simpa using hb

theorem optimize_loop_max (P : Nat → Bool) (n : Nat)
    (hmono : ∀ i j, i ≤ j → P j = true → P i = true) :
    ∀ (fuel left right best : Nat), right + 1 - left ≤ fuel →
      right ≤ n → best ≤ n → P best = true → best ≤ left →
      (∀ k, k ≤ n → right < k → P k = true → k ≤ best) →
      (∀ k, k < left → P k = true → k ≤ best) →
      optimize_loop P fuel left right best ≤ n ∧
      P (optimize_loop P fuel left right best) = true ∧
      (∀ k, k ≤ n → P k = true → k ≤ optimize_loop P fuel left right best) := by
  intro fuel
  induction fuel with
  | zero =>
    intro left right best hf hr hb hP hbl h3 h4
    simp only [optimize_loop]
    refine ⟨hb, hP, ?_⟩
    intro k hk hPk
    by_cases hkl : k < left
    · exact h4 k hkl hPk
    · exact h3 k hk (by omega) hPk
  | succ fuel ih =>
    intro left right best hf hr hb hP hbl h3 h4
    by_cases hlr : left ≤ right
    · simp only [optimize_loop, if_pos hlr]
      have hmidge : left ≤ (left + right) / 2 := by omega
      have hmidle : (left + right) / 2 ≤ right := by omega
      by_cases hPmid : P ((left + right) / 2) = true
      · rw [if_pos hPmid]
        apply ih ((left + right) / 2 + 1) right ((left + right) / 2)
          (by omega) hr (by omega) hPmid (by omega)
        · intro k hk hrk hPk
          have := h3 k hk hrk hPk
          omega
        · intro k hkl _
          omega
      · rw [if_neg hPmid]
        by_cases hmid0 : (left + right) / 2 = 0
        · exact absurd (hmono 0 best (Nat.zero_le _) hP) (by simpa [hmid0] using hPmid)
        · rw [if_neg hmid0]
          apply ih left ((left + right) / 2 - 1) best (by omega) (by omega) hb hP hbl
          · intro k hk hrk hPk
            by_cases hkr : right < k
            · exact h3 k hk hkr hPk
            · exact absurd (hmono ((left + right) / 2) k (by omega) hPk) hPmid
          · exact h4
    · simp only [optimize_loop, if_neg hlr]
      refine ⟨hb, hP, ?_⟩
      intro k hk hPk
      by_cases hkl : k < left
      · exact h4 k hkl hPk
      · exact h3 k hk (by omega) hPk

theorem sum_map_take_le {α : Type _} (f : α → Nat) :
    ∀ (l : List α) (i : Nat), ((l.take i).map f).sum ≤ (l.map f).sum := by
  intro l
  induction l with
  | nil => intro i; simp
  | cons a as ih =>
    intro i
    cases i with
    | zero => simp
    | succ i => simpa using Nat.add_le_add_left (ih i) (f a)

theorem estimate_take_mono (tokCount : String → Nat) (config : RankerConfig)
    (syms : List RankedSymbol) (i j : Nat) (hij : i ≤ j) :
    estimate_token_count tokCount config (syms.take i) ≤
      estimate_token_count tokCount config (syms.take j) := by
  have : syms.take i = (syms.take j).take i := by
    rw [List.take_take, Nat.min_eq_left hij]
  rw [this]
  exact sum_map_take_le _ _ _

/-- C8: counterexample to the claim as stated.  With per-character
tokens, one symbol whose compact line is 18 tokens and budget 18, the
selector chooses k = 1 (its counted encoding has no file header lines),
while the largest k whose claim-encoded form (file header preceding the
group) fits is 0. -/
theorem budget_selector_counterexample :
    optimize_symbols String.length cfg0 [rs0] 18 = [rs0] ∧
    claim_best_fit String.length cfg0 [rs0] 18 = 0 ∧
    (optimize_symbols String.length cfg0 [rs0] 18).length ≠
      claim_best_fit String.length cfg0 [rs0] 18 := by
  refine ⟨by decide, by decide, by decide⟩



/-- C8 (amended): the selector chooses the largest k in [0, n] such
that the sum of the per-symbol compact-line token counts of the top k
symbols fits the budget (the counted encoding is flat, without the file
header lines of the rendered map); in particular, when the budget is
smaller than the tokens of the single highest-ranked symbol, the
selection is empty and the generated map is only the map header. -/
theorem budget_selector :
    (∀ (tokCount : String → Nat) (config : RankerConfig) (syms : List RankedSymbol)
       (budget : Nat),
      ∃ k, k ≤ syms.length ∧ optimize_symbols tokCount config syms budget = syms.take k ∧
        estimate_token_count tokCount config (syms.take k) ≤ budget ∧
        ∀ j, j ≤ syms.length →
          estimate_token_count tokCount config (syms.take j) ≤ budget → j ≤ k) ∧
    (∀ (tokCount : String → Nat) (config : RankerConfig) (s : RankedSymbol)
       (rest : List RankedSymbol) (budget : Nat),
      budget < estimate_symbol_tokens tokCount config s.symbol →
        optimize_symbols tokCount config (s :: rest) budget = [] ∧
        generate_map tokCount config (s :: rest) (some budget) = repoMapHeader) := by
  have main : ∀ (tokCount : String → Nat) (config : RankerConfig) (syms : List RankedSymbol)
      (budget : Nat),
      ∃ k, k ≤ syms.length ∧ optimize_symbols tokCount config syms budget = syms.take k ∧
        estimate_token_count tokCount config (syms.take k) ≤ budget ∧
        ∀ j, j ≤ syms.length →
          estimate_token_count tokCount config (syms.take j) ≤ budget → j ≤ k := by
    intro tokCount config syms budget
    by_cases hemp : syms.isEmpty
    · have hnil : syms = [] := by simpa [List.isEmpty_iff] using hemp
      subst hnil
      exact ⟨0, by simp, by simp [optimize_symbols], by simp [estimate_token_count],
             fun j hj _ => by simpa using hj⟩
    · have hmono : ∀ i j, i ≤ j →
          (fun mid =>
            decide (estimate_token_count tokCount config (syms.take mid) ≤ budget)) j = true →
          (fun mid =>
            decide (estimate_token_count tokCount config (syms.take mid) ≤ budget)) i = true := by
        intro i j hij hj
        simp only [decide_eq_true_eq] at hj ⊢
        exact le_trans (estimate_take_mono tokCount config syms i j hij) hj
      have h0 : (fun mid =>
          decide (estimate_token_count tokCount config (syms.take mid) ≤ budget)) 0 = true := by
        simp [estimate_token_count]
      obtain ⟨hle, hPbest, hmax⟩ :=
        optimize_loop_max
          (fun mid => decide (estimate_token_count tokCount config (syms.take mid) ≤ budget))
          syms.length hmono (syms.length + 1) 0 syms.length 0
          (by omega) (le_refl _) (by omega) h0 (by omega)
          (fun k hk hlk _ => by omega)
          (fun k hk _ => by omega)
      refine ⟨_, hle, ?_, ?_, ?_⟩
      · simp [optimize_symbols, hemp]
      · simpa [decide_eq_true_eq] using hPbest
      · intro j hj hfit
        exact hmax j hj (by simp [decide_eq_true_eq, hfit])
  refine ⟨main, ?_⟩
  intro tokCount config s rest budget hbudget
  obtain ⟨k, hk, heq, hfit, hmax⟩ := main tokCount config (s :: rest) budget
  have hk0 : k = 0 := by
    by_contra hk0
    have h1k : 1 ≤ k := by omega
    have h2 := le_trans (estimate_take_mono tokCount config (s :: rest) 1 k h1k) hfit
    have h1 : estimate_token_count tokCount config ((s :: rest).take 1) =
        estimate_symbol_tokens tokCount config s.symbol := by
      simp [estimate_token_count]
    rw [h1] at h2
    omega
  subst hk0
  have hopt : optimize_symbols tokCount config (s :: rest) budget = [] := by
    simpa using heq
  refine ⟨hopt, ?_⟩
  simp [generate_map, hopt, format_repository_map]

theorem budget_selector_witness :
    (18 ≤ ([rs0] : List RankedSymbol).length ∨
      (∃ k, k ≤ ([rs0] : List RankedSymbol).length ∧
        optimize_symbols String.length cfg0 [rs0] 18 = ([rs0] : List RankedSymbol).take k ∧
        estimate_token_count String.length cfg0 (([rs0] : List RankedSymbol).take k) ≤ 18 ∧
        ∀ j, j ≤ ([rs0] : List RankedSymbol).length →
          estimate_token_count String.length cfg0 (([rs0] : List RankedSymbol).take j) ≤ 18 →
            j ≤ k)) ∧
    (17 < estimate_symbol_tokens String.length cfg0 rs0.symbol ∧
      optimize_symbols String.length cfg0 [rs0] 17 = [] ∧
      generate_map String.length cfg0 [rs0] (some 17) = repoMapHeader) :=
  ⟨Or.inr (budget_selector.1 String.length cfg0 [rs0] 18),
   ⟨by decide,
    budget_selector.2 String.length cfg0 rs0 [] 17 (by decide)⟩⟩

theorem sum_range_map (f : Nat → ℚ) : ∀ n, ((List.range n).map f).sum = ∑ j in Finset.range n, f j := by
  intro n
  induction n with
  | zero => simp
  | succ n ih => simp [List.range_succ, Finset.sum_range_succ, ih]

theorem wsumTo_cons (t : Nat) (w : ℚ) (es : List (Nat × ℚ)) (j : Nat) :
    wsumTo ((t, w) :: es) j = (if t = j then w else 0) + wsumTo es j := by
  simp only [wsumTo, List.filter]
  by_cases h : t = j
  · simp [h]
  · simp [h, beq_eq_false_iff_ne.mpr h]

theorem sum_wsumTo (n : Nat) : ∀ (es : List (Nat × ℚ)), (∀ e ∈ es, e.1 < n) →
    ∑ j in Finset.range n, wsumTo es j = totW es := by
  intro es
  induction es with
  | nil => intro _; simp [wsumTo, totW]
  | cons e rest ih =>
    intro hm
    obtain ⟨t, w⟩ := e
    have ht : t < n := hm (t, w) (by simp)
    have hrest : ∀ e ∈ rest, e.1 < n := fun e he => hm e (List.mem_cons_of_mem _ he)
    simp only [wsumTo_cons, Finset.sum_add_distrib, ih hrest]
    have : ∑ j in Finset.range n, (if t = j then w else 0) = w := by
      rw [Finset.sum_ite_eq (Finset.range n) t (fun _ => w)]
      simp [Finset.mem_range.mpr ht]
    rw [this]
    simp [totW]

theorem getD_sum (scores : List ℚ) :
    ∑ i in Finset.range scores.length, scores.getD i 0 = scores.sum := by
  induction scores with
  | nil => simp
  | cons x xs ih =>
    rw [List.length_cons, Finset.sum_range_succ']
    simp only [List.getD_cons_succ, List.getD_cons_zero]
    rw [ih]
    simp [add_comm]



theorem init_scores_length (G : PRGraph) (pers : Option (List (Option ℚ))) :
    (init_scores G pers).length = G.outs.length := by
  cases pers with
  | none => simp [init_scores]
  | some P =>
    simp only [init_scores]
    split <;> simp

theorem compute_pagerank_length (G : PRGraph) (d : ℚ) (pers : Option (List (Option ℚ))) :
    ∀ k, (compute_pagerank G d pers k).length = G.outs.length := by
  intro k
  cases k with
  | zero => exact init_scores_length G pers
  | succ k => simp [compute_pagerank, pagerank_step]

theorem pagerank_step_sum (G : PRGraph) (d : ℚ) (scores : List ℚ)
    (hW : ∀ es ∈ G.outs, es ≠ [] → totW es ≠ 0)
    (hT : ∀ es ∈ G.outs, ∀ e ∈ es, e.1 < G.outs.length)
    (hn : 1 ≤ G.outs.length)
    (hlen : scores.length = G.outs.length) :
    (pagerank_step G d none scores).sum = (1 - d) + d * scores.sum := by
  have hn0 : (G.outs.length : ℚ) ≠ 0 := by
    exact_mod_cast (by omega : G.outs.length ≠ 0)
  have hstep : (pagerank_step G d none scores).sum
      = ∑ j in Finset.range G.outs.length,
          ((1 - d) / (G.outs.length : ℚ)
            + (∑ i in Finset.range G.outs.length,
                contrib d G.outs.length (G.outs.getD i []) (scores.getD i 0) j)
            + 0) := by
    simp only [pagerank_step]
    rw [sum_range_map]
    exact Finset.sum_congr rfl (fun j _ => by rw [sum_range_map])
  rw [hstep]
  simp only [add_zero]
  rw [Finset.sum_add_distrib]
  have hconst : ∑ _j in Finset.range G.outs.length, (1 - d) / (G.outs.length : ℚ) = 1 - d := by
    rw [Finset.sum_const, Finset.card_range, nsmul_eq_mul]
    field_simp
  rw [hconst, Finset.sum_comm]
  have hin : ∀ i ∈ Finset.range G.outs.length,
      ∑ j in Finset.range G.outs.length,
        contrib d G.outs.length (G.outs.getD i []) (scores.getD i 0) j
      = d * scores.getD i 0 := by
    intro i hi
    have hi' : i < G.outs.length := Finset.mem_range.mp hi
    have hmem : G.outs.getD i [] ∈ G.outs := by
      rw [List.getD_eq_getElem G.outs [] hi']
      exact List.getElem_mem _
    by_cases hE : (G.outs.getD i []).isEmpty
    · simp only [contrib, if_pos hE]
      rw [Finset.sum_const, Finset.card_range, nsmul_eq_mul]
      field_simp
    · have hne : G.outs.getD i [] ≠ [] := by simpa [List.isEmpty_iff] using hE
      have hW' : totW (G.outs.getD i []) ≠ 0 := hW _ hmem hne
      have hT' : ∀ e ∈ G.outs.getD i [], e.1 < G.outs.length := hT _ hmem
      simp only [contrib, if_neg hE]
      calc ∑ j in Finset.range G.outs.length,
            d * scores.getD i 0 * (wsumTo (G.outs.getD i []) j / totW (G.outs.getD i []))
          = (d * scores.getD i 0 / totW (G.outs.getD i []))
              * ∑ j in Finset.range G.outs.length, wsumTo (G.outs.getD i []) j := by
            rw [Finset.mul_sum]
            exact Finset.sum_congr rfl (fun j _ => by ring)
        _ = (d * scores.getD i 0 / totW (G.outs.getD i [])) * totW (G.outs.getD i []) := by
            rw [sum_wsumTo G.outs.length _ hT']
        _ = d * scores.getD i 0 := div_mul_cancel₀ _ hW'
  rw [Finset.sum_congr rfl hin, ← Finset.mul_sum]
  have hg := getD_sum scores
  rw [hlen] at hg
  rw [hg]



theorem sum_scores_none (G : PRGraph) (d : ℚ)
    (hn : 1 ≤ G.outs.length)
    (hW : ∀ es ∈ G.outs, es ≠ [] → totW es ≠ 0)
    (hT : ∀ es ∈ G.outs, ∀ e ∈ es, e.1 < G.outs.length) :
    ∀ k, sum_scores G d none k = 1 := by
  have hn0 : (G.outs.length : ℚ) ≠ 0 := by
    exact_mod_cast (by omega : G.outs.length ≠ 0)
  intro k
  induction k with
  | zero =>
    simp only [sum_scores, compute_pagerank, init_scores, List.sum_replicate, nsmul_eq_mul]
    field_simp
  | succ k ih =>
    have hlen := compute_pagerank_length G d none k
    simp only [sum_scores, compute_pagerank]
    rw [pagerank_step_sum G d _ hW hT hn hlen]
    rw [sum_scores] at ih
    rw [ih]
    ring

theorem G1_vector : ∀ k, compute_pagerank G1 (1/2) pers1 k = [2 - (1/2) ^ k] := by
  have hr1 : List.range 1 = [0] := rfl
  intro k
  induction k with
  | zero =>
    simp only [compute_pagerank, pow_zero]
    simp [init_scores, G1, pers1, hr1]
    norm_num
  | succ k ih =>
    simp only [compute_pagerank, ih]
    simp [pagerank_step, G1, pers1, contrib, hr1]
    ring



theorem sum_scores_G1 (k : Nat) :
    sum_scores G1 (1/2) pers1 k = 2 - (1/2) ^ k := by
  rw [sum_scores, G1_vector k]
  simp

/-- C7: counterexample to the claim as stated.  For the one-node
dangling graph with personalization weight 1 on its node and damping
1/2, the score sum after k iterations is 2 - (1/2)^k, which stays more
than 1e-6 away from 1 for every k ≥ 1: the sum does not converge to 1
within 1e-6 as the iteration count grows. -/
theorem pagerank_sum_counterexample :
    ¬ (∃ K : Nat, ∀ k, K ≤ k →
        |sum_scores G1 (1/2) pers1 k - 1| ≤ 1/1000000) := by
  rintro ⟨K, h⟩
  have h1 := h (K + 1) (by omega)
  rw [sum_scores_G1] at h1
  have hp1 : ((1 : ℚ)/2) ^ (K + 1) ≤ 1/2 := by
    rw [pow_succ]
    have hK : ((1 : ℚ)/2) ^ K ≤ 1 := pow_le_one₀ (by norm_num) (by norm_num)
    nlinarith [pow_nonneg (by norm_num : (0:ℚ) ≤ 1/2) K]
  have habs : |2 - (1/2 : ℚ) ^ (K + 1) - 1| = 1 - (1/2) ^ (K + 1) := by
    rw [abs_of_nonneg (by linarith)]
    ring
  rw [habs] at h1
  linarith

theorem sum_map_div (c : ℚ) :
    ∀ (l : List (String × ℚ)), (l.map (fun kv => kv.2 / c)).sum = (l.map Prod.snd).sum / c := by
  intro l
  induction l with
  | nil => simp
  | cons kv rest ih => simp [ih, add_div]

/-- C7 (amended): without a personalization vector the sum of all node
scores equals exactly 1 at every iteration count (for graphs with at
least one node, positive out-weights and in-range targets); with a
supplied personalization vector the per-iteration bonus is added on top
of the uniform `(1-d)/N` baseline, so on the personalized one-node
example the sum is 2 - (1/2)^k and converges to 2, not 1; and
`create_personalization` does normalize its weights to sum to 1. -/
theorem pagerank_sum_behavior :
    (∀ (G : PRGraph) (d : ℚ) (k : Nat),
      1 ≤ G.outs.length →
      (∀ es ∈ G.outs, es ≠ [] → totW es ≠ 0) →
      (∀ es ∈ G.outs, ∀ e ∈ es, e.1 < G.outs.length) →
      sum_scores G d none k = 1) ∧
    (∀ k, sum_scores G1 (1/2) pers1 k = 2 - (1/2) ^ k) ∧
    (∀ (chat_files mentioned_files other_files : List String),
      0 < ((create_personalization_raw chat_files mentioned_files other_files).map
        Prod.snd).sum →
      ((create_personalization chat_files mentioned_files other_files).map Prod.snd).sum = 1) := by
  refine ⟨fun G d k hn hW hT => sum_scores_none G d hn hW hT k, sum_scores_G1, ?_⟩
  intro chat_files mentioned_files other_files hpos
  simp only [create_personalization, if_pos hpos]
  rw [List.map_map]
  have : (Prod.snd ∘ fun kv : String × ℚ =>
      (kv.1, kv.2 / ((create_personalization_raw chat_files mentioned_files
        other_files).map Prod.snd).sum)) =
      (fun kv : String × ℚ =>
        kv.2 / ((create_personalization_raw chat_files mentioned_files
          other_files).map Prod.snd).sum) := rfl
  rw [this, sum_map_div]
  exact div_self (ne_of_gt hpos)

theorem pagerank_sum_witness :
    (1 ≤ G2.outs.length ∧
     (∀ es ∈ G2.outs, es ≠ [] → totW es ≠ 0) ∧
     (∀ es ∈ G2.outs, ∀ e ∈ es, e.1 < G2.outs.length) ∧
     sum_scores G2 (17/20) none 2 = 1) ∧
    (0 < ((create_personalization_raw ["b"] [] []).map Prod.snd).sum ∧
     ((create_personalization ["b"] [] []).map Prod.snd).sum = 1) :=
  ⟨⟨by decide, by simp [G2, totW], by decide,
    pagerank_sum_behavior.1 G2 (17/20) 2 (by decide) (by simp [G2, totW]) (by decide)⟩,
   ⟨by simp [create_personalization_raw, alInsert],
    pagerank_sum_behavior.2.2 ["b"] [] []
      (by simp [create_personalization_raw, alInsert])⟩⟩

end Mermaid
